import Mathlib

set_option maxHeartbeats 1600000

/-!
Verification development for the carton sizing/resizing engine of the
webtric repository (`src/cartons.rs`, `src/cartons/resize.rs`, `src/sizon.rs`).

Shallow embedding conventions:
* pixel sizes and deltas are rationals (`ℚ`), so arithmetic is exact;
* panel identifiers (the generic dataset type `T`) are naturals;
* `HashMap` becomes an association list with first-match lookup and
  overwrite-on-insert; `HashSet` becomes a duplicate-free list;
* DOM measurement is an input: the measured panel list is passed in;
* `&mut` arguments are returned alongside each function's result, so the
  observable state after an error is part of each function's value.
-/

/-- Sizon from `src/sizon.rs`: optional absolute size plus optional relative
ratio. -/
structure Sizon where
  abs : Option ℚ
  rel : Option ℚ
deriving DecidableEq, Repr

/-- Sizon::max_abs. -/
def Sizon.maxAbs (z : Sizon) (a : ℚ) : ℚ :=
  match z.abs with
  | some b => Max.max b a
  | none => a

/-- Sizon::min_abs. -/
def Sizon.minAbs (z : Sizon) (a : ℚ) : ℚ :=
  match z.abs with
  | some b => Min.min b a
  | none => a

/-- Sizon::max: lower clamp combining abs and rel; rel applies only when the
parent size is present and normal (for rationals: nonzero). -/
def Sizon.max (z : Sizon) (a : ℚ) (par : Option ℚ) : ℚ :=
  let a0 := z.maxAbs a
  match z.rel, par with
  | some r, some p => if p ≠ 0 ∧ a0 / p < r then p * r else a0
  | _, _ => a0

/-- Sizon::min: upper clamp combining abs and rel; rel applies only when the
parent size is present and normal (for rationals: nonzero). -/
def Sizon.min (z : Sizon) (a : ℚ) (par : Option ℚ) : ℚ :=
  let a0 := z.minAbs a
  match z.rel, par with
  | some r, some p => if p ≠ 0 ∧ r < a0 / p then p * r else a0
  | _, _ => a0

/-- First-match association lookup (HashMap::get). -/
def lookupN {V : Type} (d : ℕ) : List (ℕ × V) → Option V
  | [] => none
  | (k, v) :: t => if k = d then some v else lookupN d t

/-- Drop every entry with the given key (HashMap::remove). -/
def eraseKey {V : Type} (d : ℕ) : List (ℕ × V) → List (ℕ × V)
  | [] => []
  | (k, v) :: t => if k = d then eraseKey d t else (k, v) :: eraseKey d t

/-- Remove the first occurrence of an element (HashSet::remove). -/
def eraseN (d : ℕ) : List ℕ → List ℕ
  | [] => []
  | a :: t => if a = d then t else a :: eraseN d t

/-- Add an element if absent (HashSet::insert). -/
def insertN (d : ℕ) (l : List ℕ) : List ℕ :=
  if d ∈ l then l else d :: l

/-- CartonsMap from `src/cartons.rs`: keyed map with a default fallback. -/
structure CartonsMap (V : Type) where
  map : List (ℕ × V)
  default : V
deriving DecidableEq, Repr

/-- CartonsMap::get. -/
def CartonsMap.get {V : Type} (m : CartonsMap V) (d : ℕ) : V :=
  match lookupN d m.map with
  | some v => v
  | none => m.default

/-- CartonsMap::insert (overwrite semantics of HashMap::insert). -/
def CartonsMap.insert {V : Type} (m : CartonsMap V) (d : ℕ) (v : V) : CartonsMap V :=
  { m with map := (d, v) :: eraseKey d m.map }

/-- CartonsMap::remove. -/
def CartonsMap.remove {V : Type} (m : CartonsMap V) (d : ℕ) : CartonsMap V :=
  { m with map := eraseKey d m.map }

/-- CartonsMetric: value none is the zeroed (collapsed) state. -/
abbrev CartonsMetric := CartonsMap (Option Sizon)

/-- Per-panel data/size pairs (the `data_sizes` vector). -/
abbrev DataSizes := List (ℕ × Option ℚ)

/-- Error type from `src/error.rs`. -/
inductive WError where
  | ignore : WError
  | msg : String → WError
deriving DecidableEq, Repr

/-- Overwrite-insert into an association-list HashMap (zeroed_cache local map). -/
def hmInsert (zc : List (ℕ × ℚ)) (d : ℕ) (v : ℚ) : List (ℕ × ℚ) :=
  (d, v) :: eraseKey d zc

/-- One entry of abs_revised: keep the stored Sizon but refresh abs to the
new size; a collapsed size maps to none. -/
def absRevEntry (m : CartonsMetric) (d : ℕ) (sz : Option ℚ) : Option Sizon :=
  match sz with
  | some size =>
    match m.get d with
    | some z => some { z with abs := some size }
    | none => none
  | none => none

/-- CartonsMetric::abs_revised: clone entries keeping rel, refreshing abs;
default becomes the total as an abs-only Sizon. -/
def CartonsMetric.absRevised (m : CartonsMetric) (ds : DataSizes) (total : ℚ) :
    CartonsMetric :=
  { map := ds.map (fun p => (p.1, absRevEntry m p.1 p.2)),
    default := some ⟨some total, none⟩ }

/-- CartonsMetric::new_from: fresh metric, abs := size and rel := size/total;
default becomes the total as an abs-only Sizon. -/
def CartonsMetric.newFrom (ds : DataSizes) (total : ℚ) : CartonsMetric :=
  { map := ds.map (fun p => (p.1, p.2.map (fun s => Sizon.mk (some s) (some (s / total))))),
    default := some ⟨some total, none⟩ }

/-- CartonsComplex from `src/cartons.rs` (DOM-only fields such as the dataset
name live in the DOM collaborator and are omitted). -/
structure CartonsComplex where
  lateral : Bool
  independent : Bool
  metric : CartonsMetric
  min : CartonsMap Sizon
  max : CartonsMap Sizon
  allow_zero : CartonsMap Bool
  zeroed_when : CartonsMap Sizon
  zeroed_cache : CartonsMap ℚ
deriving DecidableEq, Repr

/-- CartonsComplex::max_limited. -/
def CartonsComplex.max_limited (cx : CartonsComplex) (d : ℕ) (size w : ℚ) : ℚ :=
  (cx.max.get d).min size (some w)

/-- CartonsComplex::limited. -/
def CartonsComplex.limited (cx : CartonsComplex) (d : ℕ) (size w : ℚ) : ℚ :=
  let size := (cx.max.get d).min size (some w)
  (cx.min.get d).max size (some w)

/-- CartonsComplex::_max: resolved maximum bound (none means unbounded). -/
def CartonsComplex.maxResolved (cx : CartonsComplex) (d : ℕ) (w : ℚ) : Option ℚ :=
  let z := cx.max.get d
  match z.abs, z.rel with
  | some a, some r => some (Min.min a (r * w))
  | some a, none => some a
  | none, some r => some (r * w)
  | none, none => none

/-- CartonsComplex::_min: resolved minimum bound, fallback zero. -/
def CartonsComplex.minResolved (cx : CartonsComplex) (d : ℕ) (w : ℚ) : ℚ :=
  let z := cx.min.get d
  match z.abs, z.rel with
  | some a, some r => Max.max a (r * w)
  | some a, none => a
  | none, some r => r * w
  | none, none => 0

/-- CartonsComplex::_zeroed_when: the collapse threshold, none when the panel
is not zero-able. -/
def CartonsComplex.zeroedWhen (cx : CartonsComplex) (d : ℕ) (size : ℚ) : Option ℚ :=
  if cx.allow_zero.get d = false then none
  else
    let z := cx.zeroed_when.get d
    let x : ℚ :=
      match z.abs, z.rel with
      | some a, some r => Max.max a (r * size)
      | some a, none => a
      | none, some r => r * size
      | none, none => 0
    some (Max.max x 0)

/-- CartonsComplex::_zeroed: whether the metric currently records the panel as
zeroed (a map entry that is present and none). -/
def CartonsComplex.zeroed (cx : CartonsComplex) (d : ℕ) : Bool :=
  match lookupN d cx.metric.map with
  | some v => v.isNone
  | none => false

/-- CartonsComplex::get_total_size. -/
def getTotalSize (ds : DataSizes) : ℚ :=
  (ds.map (fun p => p.2.getD 0)).sum

/-- CartonsComplex::_zeroed_cache: cached ratio scaled by the wrap size. -/
def CartonsComplex.zeroedCacheOf (cx : CartonsComplex) (d : ℕ) (w : ℚ) : ℚ :=
  w * cx.zeroed_cache.get d

/-- Proportional pass of adjust_to_fill_blank. State is (total, blank); the
loop breaks as soon as blank is no longer positive. -/
def CartonsComplex.fillPass1 (cx : CartonsComplex) (w : ℚ) :
    ℚ × ℚ → DataSizes → (ℚ × ℚ) × DataSizes
  | (total, blank), [] => ((total, blank), [])
  | (total, blank), (d, sz) :: rest =>
    if 0 < blank then
      match sz with
      | some size =>
        let add := size / w * blank
        let newSize := cx.max_limited d (size + add) w
        let delta := Max.max (newSize - size) 0
        let r := cx.fillPass1 w (total + delta, blank - delta) rest
        (r.1, (d, some (size + delta)) :: r.2)
      | none =>
        let r := cx.fillPass1 w (total, blank) rest
        (r.1, (d, none) :: r.2)
    else ((total, blank), (d, sz) :: rest)

/-- Rear-first pass of adjust_to_fill_blank, written on the reversed list. -/
def CartonsComplex.fillPass2 (cx : CartonsComplex) (w : ℚ) :
    ℚ × ℚ → DataSizes → (ℚ × ℚ) × DataSizes
  | (total, blank), [] => ((total, blank), [])
  | (total, blank), (d, sz) :: rest =>
    if 0 < blank then
      match sz with
      | some size =>
        let newSize := cx.max_limited d (size + blank) w
        let delta := Max.max (newSize - size) 0
        let r := cx.fillPass2 w (total + delta, blank - delta) rest
        (r.1, (d, some (size + delta)) :: r.2)
      | none =>
        let r := cx.fillPass2 w (total, blank) rest
        (r.1, (d, none) :: r.2)
    else ((total, blank), (d, sz) :: rest)

/-- CartonsComplex::adjust_to_fill_blank; returns (total, adjusted list). -/
def CartonsComplex.adjust_to_fill_blank (cx : CartonsComplex) (w : ℚ) (ds : DataSizes) :
    ℚ × DataSizes :=
  let total := getTotalSize ds
  let blank : ℚ := ((⌊w - total⌋ : ℤ) : ℚ)
  if 0 < blank then
    let r1 := cx.fillPass1 w (total, blank) ds
    if 0 < r1.1.2 then
      let r2 := cx.fillPass2 w (r1.1.1, r1.1.2) r1.2.reverse
      (r2.1.1, r2.2.reverse)
    else (r1.1.1, r1.2)
  else (total, ds)

/-- The in-place update `data_sizes[i].1 = v` (replace/take on the Option). -/
def setSize (ds : DataSizes) (i : ℕ) (v : Option ℚ) : DataSizes :=
  match ds.get? i with
  | some p => ds.set i (p.1, v)
  | none => ds

/-- The in-place update `data_sizes[i].1.as_mut().map(|x| *x += c)`. -/
def addSize (ds : DataSizes) (i : ℕ) (c : ℚ) : DataSizes :=
  match ds.get? i with
  | some (d, some s) => ds.set i (d, some (s + c))
  | _ => ds

/-- CartonsComplex::handle_expanding. On success returns the new size together
with the updated data sizes and zero_restored set. -/
def CartonsComplex.handle_expanding (cx : CartonsComplex) (d : ℕ) (delta w : ℚ)
    (ds : DataSizes) (index : ℕ) (size : Option ℚ) (mn : ℚ) (zr : List ℕ) :
    Option (ℚ × DataSizes × List ℕ) :=
  match size with
  | some size =>
    let newSize := size + delta
    if mn ≤ newSize then
      let newSize := cx.max_limited d newSize w
      if size < newSize then some (newSize, setSize ds index (some newSize), zr)
      else none
    else none
  | none =>
    match cx.zeroedWhen d 0 with
    | some zw =>
      if zw ≤ delta then some (mn, setSize ds index (some mn), eraseN d zr)
      else none
    | none => none

/-- CartonsComplex::handle_shrinking. On success returns the new size together
with the updated data sizes and zeroed_cache map. -/
def CartonsComplex.handle_shrinking (cx : CartonsComplex) (d : ℕ) (delta w : ℚ)
    (ds : DataSizes) (index : ℕ) (size : Option ℚ) (mn : ℚ) (zc : List (ℕ × ℚ)) :
    Option (ℚ × DataSizes × List (ℕ × ℚ)) :=
  match size with
  | some size =>
    let newSize := size + delta
    if newSize < mn then
      match cx.zeroedWhen d size with
      | some zw => if zw < |delta| then some (0, setSize ds index none, zc) else none
      | none => none
    else some (newSize, setSize ds index (some newSize), hmInsert zc d (size / w))
  | none => none

/-- CartonsComplex::independent_resizing. The mutable state (data sizes,
zeroed cache, zero restored) is returned with the result. -/
def CartonsComplex.independent_resizing (cx : CartonsComplex) (d : ℕ) (delta w : ℚ)
    (ds : DataSizes) (index : ℕ) (size : Option ℚ)
    (zc : List (ℕ × ℚ)) (zr : List ℕ) :
    Except WError Unit × DataSizes × List (ℕ × ℚ) × List ℕ :=
  if delta = 0 then (.error .ignore, ds, zc, zr)
  else if 0 < delta then
    let mn := cx.minResolved d w
    match cx.handle_expanding d delta w ds index size mn zr with
    | some r => (.ok (), r.2.1, zc, r.2.2)
    | none => (.error .ignore, ds, zc, zr)
  else
    let mn := cx.minResolved d w
    match cx.handle_shrinking d delta w ds index size mn zc with
    | some r => (.ok (), r.2.1, r.2.2, zr)
    | none => (.error .ignore, ds, zc, zr)

/-- Entry of the enumerated panel list built at the start of
dependent_resizing: position, data, size, resolved minimum. -/
structure PanelInfo where
  i : ℕ
  d : ℕ
  sz : Option ℚ
  mn : ℚ
deriving DecidableEq, Repr

/-- The enumerated (index, data, size, min) list of dependent_resizing,
built by direct recursion with an index counter. -/
def CartonsComplex.panelListFrom (cx : CartonsComplex) (w : ℚ) : ℕ → DataSizes → List PanelInfo
  | _, [] => []
  | i, (d, sz) :: t => ⟨i, d, sz, cx.minResolved d w⟩ :: cx.panelListFrom w (i + 1) t

/-- The enumerated (index, data, size, min) list of dependent_resizing. -/
def CartonsComplex.panelList (cx : CartonsComplex) (w : ℚ) (ds : DataSizes) :
    List PanelInfo :=
  cx.panelListFrom w 0 ds

/-- The add_to_cache closure: push only when the index is not cached yet. -/
def addToCache (cache : List (ℕ × ℚ)) (i : ℕ) (s : ℚ) : List (ℕ × ℚ) :=
  if ∀ p ∈ cache, p.1 ≠ i then cache ++ [(i, s)] else cache

/-- The max-shrink-capacity fold of dependent_resizing (step 0). -/
def shrinkCapOf (l : List PanelInfo) : ℚ :=
  (l.map (fun p => match p.sz with | some s => Max.max (s - p.mn) 0 | none => 0)).sum

/-- The do_shrink closure of dependent_resizing: shrink panels (never past
their min) within the capacity, recording pre-shrink sizes into the gesture
cache. Returns (data sizes, zeroed cache, gesture cache). -/
def CartonsComplex.doShrink (cx : CartonsComplex) (w : ℚ) :
    ℚ → List PanelInfo → DataSizes → List (ℕ × ℚ) → List (ℕ × ℚ) →
    DataSizes × List (ℕ × ℚ) × List (ℕ × ℚ)
  | _, [], ds, zc, cache => (ds, zc, cache)
  | capacity, p :: rest, ds, zc, cache =>
    if capacity ≤ 0 then (ds, zc, cache)
    else
      match p.sz with
      | some size =>
        let delta := -(Min.min (size - p.mn) capacity)
        if delta < 0 then
          match cx.handle_shrinking p.d delta w ds p.i (some size) p.mn zc with
          | some (newSize, ds, zc) =>
            cx.doShrink w (capacity - (size - newSize)) rest ds zc (addToCache cache p.i size)
          | none => cx.doShrink w capacity rest ds zc cache
        else cx.doShrink w capacity rest ds zc cache
      | none => cx.doShrink w capacity rest ds zc cache

/-- The absorption loop of dependent_resizing step 1: how much of the freed
capacity can the expand panels take, up to their max bounds. Returns
(remaining capacity, list of (panel index, absorbed amount)). -/
def CartonsComplex.absorbExps (cx : CartonsComplex) (w : ℚ) :
    ℚ → List PanelInfo → ℚ × List (ℕ × ℚ)
  | cap_, [] => (cap_, [])
  | cap_, p :: rest =>
    if cap_ ≤ 0 then (cap_, [])
    else
      match p.sz with
      | some size =>
        let cap := match cx.maxResolved p.d w with
          | some mx => Min.min (Max.max (mx - size) 0) cap_
          | none => cap_
        let r := cx.absorbExps w (cap_ - cap) rest
        (r.1, (p.i, cap) :: r.2)
      | none => cx.absorbExps w cap_ rest

/-- Replace the size of the first entry with the given panel index (the
iter_mut().find(..) mutation of the cache-priority pass). -/
def updateFirst (l : List PanelInfo) (i : ℕ) (ns : ℚ) : List PanelInfo :=
  match l with
  | [] => []
  | q :: rest => if q.i = i then { q with sz := some ns } :: rest else q :: updateFirst rest i ns

/-- Find the first panel entry with the given index (iter().find()). -/
def findPanel (i : ℕ) : List PanelInfo → Option PanelInfo
  | [] => none
  | p :: t => if p.i = i then some p else findPanel i t

/-- Cache-priority expansion (step 3-1 of dependent_resizing), walking the
gesture cache newest first. -/
def CartonsComplex.cachePass (cx : CartonsComplex) (w : ℚ) (isAtExp : ℕ → Bool) :
    ℚ → List (ℕ × ℚ) → List PanelInfo → DataSizes → List ℕ →
    ℚ × List PanelInfo × DataSizes × List ℕ
  | ec, [], expands, ds, zr => (ec, expands, ds, zr)
  | ec, (i, cv) :: rest, expands, ds, zr =>
    if ec ≤ 0 then (ec, expands, ds, zr)
    else if isAtExp i then
      match findPanel i expands with
      | some p =>
        match p.sz with
        | some size =>
          let delta := Min.min (cv - size) ec
          if 0 < delta then
            match cx.handle_expanding p.d delta w ds p.i (some size) p.mn zr with
            | some (newSize, ds, zr) =>
              cx.cachePass w isAtExp (ec - (newSize - size)) rest (updateFirst expands i newSize) ds zr
            | none => cx.cachePass w isAtExp ec rest expands ds zr
          else cx.cachePass w isAtExp ec rest expands ds zr
        | none => cx.cachePass w isAtExp ec rest expands ds zr
      | none => cx.cachePass w isAtExp ec rest expands ds zr
    else cx.cachePass w isAtExp ec rest expands ds zr

/-- Front expansion (step 3-2 of dependent_resizing): feed the remaining
capacity into the expand panels, closest to the boundary first. -/
def CartonsComplex.frontExpand (cx : CartonsComplex) (w : ℚ) :
    ℚ → List PanelInfo → DataSizes → List ℕ → ℚ × DataSizes × List ℕ
  | ec, [], ds, zr => (ec, ds, zr)
  | ec, p :: rest, ds, zr =>
    if ec ≤ 0 then (ec, ds, zr)
    else
      match p.sz with
      | some size =>
        match cx.handle_expanding p.d ec w ds p.i (some size) p.mn zr with
        | some (newSize, ds, zr) => cx.frontExpand w (ec - (newSize - size)) rest ds zr
        | none => cx.frontExpand w ec rest ds zr
      | none => cx.frontExpand w ec rest ds zr

/-- Step 3 of dependent_resizing (ordinary cascade): cache-priority
expansion, front expansion, then shrink to fund the consumed capacity. -/
def CartonsComplex.depCase3 (cx : CartonsComplex) (w rawCapacity : ℚ) (rev : Bool)
    (leadIndex : ℕ) (maxShrinkCap : ℚ) (shrinks expands : List PanelInfo)
    (ds : DataSizes) (cache zc : List (ℕ × ℚ)) (zr : List ℕ) :
    Except WError Unit × DataSizes × List (ℕ × ℚ) × List (ℕ × ℚ) × List ℕ :=
  let expCapacity := Min.min rawCapacity maxShrinkCap
  let isAtExp : ℕ → Bool := fun i => if rev then decide (leadIndex ≤ i) else decide (i ≤ leadIndex)
  match cx.cachePass w isAtExp expCapacity cache.reverse expands ds zr with
  | (ec, expands, ds, zr) =>
    match cx.frontExpand w ec expands ds zr with
    | (ec, ds, zr) =>
      let shrinkCapacity := expCapacity - ec
      match cx.doShrink w shrinkCapacity shrinks ds zc cache with
      | (ds, zc, cache) => (.ok (), ds, cache, zc, zr)

/-- Step 1 of dependent_resizing: nothing can be shrunk ordinarily; try a
zero-shrink of the nearest shrink-side panel, committing only when the freed
size is exactly absorbable by the expand side. -/
def CartonsComplex.depCase1 (cx : CartonsComplex) (w rawCapacity : ℚ)
    (shrinks expands : List PanelInfo) (ds : DataSizes) (cache zc : List (ℕ × ℚ))
    (zr : List ℕ) :
    Except WError Unit × DataSizes × List (ℕ × ℚ) × List (ℕ × ℚ) × List ℕ :=
  match shrinks.head? with
  | some p =>
    match p.sz with
    | some size =>
      match cx.zeroedWhen p.d size with
      | some zw =>
        if zw ≤ rawCapacity then
          let r := cx.absorbExps w size expands
          if r.2 ≠ [] ∧ r.1 = 0 then
            let ds1 := setSize ds p.i none
            let zc1 := hmInsert zc p.d (size / w)
            let cache1 := addToCache cache p.i size
            let ds2 := r.2.foldl (fun a q => addSize a q.1 q.2) ds1
            (.ok (), ds2, cache1, zc1, zr)
          else (.error .ignore, ds, cache, zc, zr)
        else (.error .ignore, ds, cache, zc, zr)
      | none => (.error .ignore, ds, cache, zc, zr)
    | none => (.error .ignore, ds, cache, zc, zr)
  | none => (.error .ignore, ds, cache, zc, zr)

/-- Steps 2 and 3 of dependent_resizing: try a zero-restore of the nearest
expand-side panel, else fall through to the ordinary cascade. -/
def CartonsComplex.depCase2 (cx : CartonsComplex) (w rawCapacity : ℚ) (rev : Bool)
    (leadIndex : ℕ) (maxShrinkCap : ℚ) (shrinks expands : List PanelInfo)
    (ds : DataSizes) (cache zc : List (ℕ × ℚ)) (zr : List ℕ) :
    Except WError Unit × DataSizes × List (ℕ × ℚ) × List (ℕ × ℚ) × List ℕ :=
  match expands.head? with
  | some p =>
    match p.sz with
    | none =>
      match cx.zeroedWhen p.d 0 with
      | some zw =>
        if zw ≤ rawCapacity ∧ p.mn ≤ maxShrinkCap then
          let ds1 := setSize ds p.i (some p.mn)
          let zr1 := insertN p.d zr
          match cx.doShrink w p.mn shrinks ds1 zc cache with
          | (ds2, zc2, cache2) => (.ok (), ds2, cache2, zc2, zr1)
        else (.error .ignore, ds, cache, zc, zr)
      | none =>
        cx.depCase3 w rawCapacity rev leadIndex maxShrinkCap shrinks expands ds cache zc zr
    | some _ =>
      cx.depCase3 w rawCapacity rev leadIndex maxShrinkCap shrinks expands ds cache zc zr
  | none =>
    cx.depCase3 w rawCapacity rev leadIndex maxShrinkCap shrinks expands ds cache zc zr

/-- CartonsComplex::dependent_resizing. Returns (result, data sizes, gesture
cache, zeroed cache, zero restored). -/
def CartonsComplex.dependent_resizing (cx : CartonsComplex) (delta w : ℚ)
    (ds : DataSizes) (index : ℕ) (cache zc : List (ℕ × ℚ)) (zr : List ℕ) :
    Except WError Unit × DataSizes × List (ℕ × ℚ) × List (ℕ × ℚ) × List ℕ :=
  if delta = 0 then (.error .ignore, ds, cache, zc, zr)
  else
    let rev : Bool := decide (delta < 0)
    let rawCapacity := |delta|
    let leadIndex := if rev then index + 1 else index
    let list := cx.panelList w ds
    let shrinks := if rev then (list.take leadIndex).reverse else list.drop (leadIndex + 1)
    let expands := if rev then list.drop leadIndex else (list.take (leadIndex + 1)).reverse
    let maxShrinkCap := shrinkCapOf shrinks
    if maxShrinkCap = 0 then
      cx.depCase1 w rawCapacity shrinks expands ds cache zc zr
    else
      cx.depCase2 w rawCapacity rev leadIndex maxShrinkCap shrinks expands ds cache zc zr

/-- CartonsComplex::measures, with the DOM supplied as a list of
(data, measured size) in child order. A panel recorded as zeroed reports
none regardless of its measured size. -/
def CartonsComplex.measuredDS (cx : CartonsComplex) (dom : List (ℕ × ℚ)) : DataSizes :=
  dom.map (fun p => (p.1, if cx.zeroed p.1 then none else some p.2))

/-- Find (position, size) of the first entry carrying the given data
(the find_map over enumerate inside CartonsComplex::measures). -/
def findIndexData (d : ℕ) : ℕ → DataSizes → Option (ℕ × Option ℚ)
  | _, [] => none
  | i, (k, sz) :: t => if k = d then some (i, sz) else findIndexData d (i + 1) t

def CartonsComplex.measures (cx : CartonsComplex) (dom : List (ℕ × ℚ)) (d : ℕ) :
    Except WError (DataSizes × ℕ × Option ℚ) :=
  let ds := cx.measuredDS dom
  match findIndexData d 0 ds with
  | some q => .ok (ds, q.1, q.2)
  | none => .error (.msg "data is not found")

/-- CartonsComplex::update_resize, exposing the final data sizes and total in
addition to the returned metric. The gesture cache, zeroed cache and zero
restored state are returned in every case, mirroring the &mut arguments. -/
def CartonsComplex.update_resize_core (cx : CartonsComplex) (w : ℚ) (dom : List (ℕ × ℚ))
    (d : ℕ) (delta : ℚ) (cache zc : List (ℕ × ℚ)) (zr : List ℕ) :
    Except WError (CartonsMetric × DataSizes × ℚ) × List (ℕ × ℚ) × List (ℕ × ℚ) × List ℕ :=
  match cx.measures dom d with
  | .error e => (.error e, cache, zc, zr)
  | .ok (ds, index, size) =>
    if cx.independent then
      match cx.independent_resizing d delta w ds index size zc zr with
      | (.ok _, ds1, zc1, zr1) =>
        let total := getTotalSize ds1
        (.ok (CartonsMetric.newFrom ds1 total, ds1, total), cache, zc1, zr1)
      | (.error e, _, zc1, zr1) => (.error e, cache, zc1, zr1)
    else
      match cx.dependent_resizing delta w ds index cache zc zr with
      | (.ok _, ds1, cache1, zc1, zr1) =>
        let r := cx.adjust_to_fill_blank w ds1
        (.ok (CartonsMetric.newFrom r.2 r.1, r.2, r.1), cache1, zc1, zr1)
      | (.error e, _, cache1, zc1, zr1) => (.error e, cache1, zc1, zr1)

/-- CartonsComplex::update_resize as the source returns it (metric only). -/
def CartonsComplex.update_resize (cx : CartonsComplex) (w : ℚ) (dom : List (ℕ × ℚ))
    (d : ℕ) (delta : ℚ) (cache zc : List (ℕ × ℚ)) (zr : List ℕ) :
    Except WError CartonsMetric × List (ℕ × ℚ) × List (ℕ × ℚ) × List ℕ :=
  match cx.update_resize_core w dom d delta cache zc zr with
  | (.ok r, cache1, zc1, zr1) => (.ok r.1, cache1, zc1, zr1)
  | (.error e, cache1, zc1, zr1) => (.error e, cache1, zc1, zr1)

/-- Candidate size of one panel at the start of wrap_effect_on_update: the
stored rel scaled by the wrap size (abs as fallback), clamped by limited;
none when the panel is recorded collapsed. -/
def CartonsComplex.candOf (cx : CartonsComplex) (w : ℚ) (d : ℕ) : Option ℚ :=
  (cx.metric.get d).map (fun z =>
    let size := match z.rel with
      | some r => w * r
      | none => z.abs.getD 0
    cx.limited d size w)

/-- The candidate list of wrap_effect_on_update. -/
def CartonsComplex.wrapCandidates (cx : CartonsComplex) (w : ℚ) (datas : List ℕ) :
    DataSizes :=
  datas.map (fun d => (d, cx.candOf w d))

/-- CartonsComplex::wrap_effect_on_update (the reconcile operation), with the
DOM enumeration supplied as the list of child datas; style writing omitted. -/
def CartonsComplex.wrap_effect_on_update (cx : CartonsComplex) (w : ℚ) (datas : List ℕ) :
    CartonsMetric :=
  let ds := cx.wrapCandidates w datas
  if cx.independent then
    CartonsMetric.absRevised cx.metric ds (getTotalSize ds)
  else
    let r := cx.adjust_to_fill_blank w ds
    CartonsMetric.absRevised cx.metric r.2 r.1

/-- Gathering loop of switch_zero restore (dependent): how much the other
panels can give up, down to their resolved minimums. The counter is the
enumeration index. -/
def CartonsComplex.switchOnGather (cx : CartonsComplex) (w : ℚ) :
    ℚ → ℕ → DataSizes → ℚ × List (ℕ × ℚ)
  | cap_, _, [] => (cap_, [])
  | cap_, i, p :: rest =>
    if cap_ ≤ 0 then (cap_, [])
    else
      match p.2 with
      | some size =>
        let mn := cx.minResolved p.1 w
        let cap := Min.min (Max.max (size - mn) 0) cap_
        if 0 < cap then
          let r := cx.switchOnGather w (cap_ - cap) (i + 1) rest
          (r.1, (i, cap) :: r.2)
        else cx.switchOnGather w cap_ (i + 1) rest
      | none => cx.switchOnGather w cap_ (i + 1) rest

/-- Gathering loop of switch_zero collapse (dependent): how much the panels
can absorb, up to their resolved maximums. -/
def CartonsComplex.switchOffGather (cx : CartonsComplex) (w : ℚ) :
    ℚ → ℕ → DataSizes → ℚ × List (ℕ × ℚ)
  | cap_, _, [] => (cap_, [])
  | cap_, i, p :: rest =>
    if cap_ ≤ 0 then (cap_, [])
    else
      match p.2 with
      | some size =>
        let cap := match cx.maxResolved p.1 w with
          | some mx => Min.min (Max.max (mx - size) 0) cap_
          | none => cap_
        let r := cx.switchOffGather w (cap_ - cap) (i + 1) rest
        (r.1, (i, cap) :: r.2)
      | none => cx.switchOffGather w cap_ (i + 1) rest

/-- The state change switch_zero decides on (none = not changed): new data
sizes and new zeroed_cache. -/
def CartonsComplex.switchZeroStep (cx : CartonsComplex) (w : ℚ) (ds : DataSizes)
    (index : ℕ) (size : Option ℚ) (d : ℕ) (onn : Bool) :
    Option (DataSizes × CartonsMap ℚ) :=
  if onn then
    match size with
    | none =>
      let cache := cx.zeroedCacheOf d w
      let mn := cx.minResolved d w
      if cx.independent then
        if mn ≤ cache then some (setSize ds index (some cache), cx.zeroed_cache.remove d)
        else none
      else
        let r := cx.switchOnGather w cache 0 ds
        let cap := Min.min cache (cache - r.1)
        if mn ≤ cap then
          some (r.2.foldl (fun a q => addSize a q.1 (-q.2)) (setSize ds index (some cap)),
            cx.zeroed_cache.remove d)
        else none
    | some _ => none
  else
    match size with
    | some s =>
      if cx.allow_zero.get d then
        if cx.independent then
          some (setSize ds index none, cx.zeroed_cache.insert d (s / w))
        else
          let r := cx.switchOffGather w s 0 ds
          if r.1 = 0 then
            some (r.2.foldl (fun a q => addSize a q.1 q.2) (setSize ds index none),
              cx.zeroed_cache.insert d (s / w))
          else none
      else none
    | none => none

/-- CartonsComplex::switch_zero. Returns the result together with the updated
complex (self is &mut in the source). -/
def CartonsComplex.switch_zero (cx : CartonsComplex) (w : ℚ) (dom : List (ℕ × ℚ))
    (d : ℕ) (onn : Bool) : Except WError Unit × CartonsComplex :=
  match cx.measures dom d with
  | .error e => (.error e, cx)
  | .ok (ds, index, size) =>
    match cx.switchZeroStep w ds index size d onn with
    | none => (.error .ignore, cx)
    | some (ds1, zcache) =>
      if cx.independent then
        (.ok (), { cx with metric := CartonsMetric.newFrom ds1 (getTotalSize ds1),
                           zeroed_cache := zcache })
      else
        let r := cx.adjust_to_fill_blank w ds1
        (.ok (), { cx with metric := CartonsMetric.newFrom r.2 r.1,
                           zeroed_cache := zcache })

/-- Sum of the non-collapsed abs entries of a metric map: the total occupied
extent a Size State Map records for the listed panels. -/
def metricTotal (m : CartonsMetric) : ℚ :=
  (m.map.map (fun p => match p.2 with | some z => z.abs.getD 0 | none => 0)).sum

/-- Aggregate resolved max capacity of the non-collapsed panels of a state;
none means unbounded (some non-collapsed panel has no resolved max). -/
def CartonsComplex.capsSum (cx : CartonsComplex) (w : ℚ) : DataSizes → Option ℚ
  | [] => some 0
  | (d, some _) :: rest =>
    match cx.maxResolved d w, cx.capsSum w rest with
    | some m, some s => some (m + s)
    | _, _ => none
  | (_, none) :: rest => cx.capsSum w rest

/-- Aggregate capacity is at least the given extent (unbounded counts as yes). -/
def capAtLeast (c : Option ℚ) (x : ℚ) : Bool :=
  match c with
  | none => true
  | some s => decide (x ≤ s)

/-- Addition of optional capacities: adding the unbounded capacity is unbounded. -/
def optAdd : Option ℚ → Option ℚ → Option ℚ
  | some a, some b => some (a + b)
  | _, _ => none

/-- One-sided growth bound between a panel entry before and after a
size-adding pass: same data, a collapsed entry stays collapsed, a size never
shrinks, and a size that actually grew is within the resolved max when one
exists. -/
def growsWithinMax (cx : CartonsComplex) (w : ℚ) (p q : ℕ × Option ℚ) : Prop :=
  p.1 = q.1 ∧
    ((p.2 = none ∧ q.2 = none) ∨
      ∃ s s2, p.2 = some s ∧ q.2 = some s2 ∧ s ≤ s2 ∧
        (s ≠ s2 → capAtLeast (cx.maxResolved p.1 w) s2 = true))

/-- Clamp from above by an optional cap (none caps nothing). -/
def optMin (c : Option ℚ) (s : ℚ) : ℚ :=
  match c with
  | some c => Min.min s c
  | none => s

/-- Clamp from below by an optional floor (none floors nothing). -/
def optMax (f : Option ℚ) (s : ℚ) : ℚ :=
  match f with
  | some f => Max.max s f
  | none => s

/-- Resolved minimum bound as an optional value (none when the min Sizon is
fully unset; minResolved then falls back to zero). -/
def CartonsComplex.floorResolved (cx : CartonsComplex) (d : ℕ) (w : ℚ) : Option ℚ :=
  let z := cx.min.get d
  match z.abs, z.rel with
  | some a, some r => some (Max.max a (r * w))
  | some a, none => some a
  | none, some r => some (r * w)
  | none, none => none

/-- Builder for concrete test complexes: all rule maps are defaults-only
except the metric. -/
def mkCx (indep : Bool) (metric : List (ℕ × Option Sizon)) (mn mx : Sizon)
    (az : Bool) (zwn : Sizon) : CartonsComplex :=
  { lateral := true, independent := indep,
    metric := ⟨metric, none⟩,
    min := ⟨[], mn⟩, max := ⟨[], mx⟩,
    allow_zero := ⟨[], az⟩, zeroed_when := ⟨[], zwn⟩, zeroed_cache := ⟨[], 0⟩ }

/-- Fixture for the C1 counterexample: dependent mode, one panel whose
resolved minimum (200) forces overflow of the 100-wide container. -/
def cxOverflow : CartonsComplex :=
  mkCx false [(0, some ⟨some 200, none⟩)] ⟨some 200, none⟩ ⟨none, none⟩ false ⟨none, none⟩

/-- Fixture for the C1 witness, reconcile part: two 40-wide panels, no max
bounds, 100-wide container. -/
def cxFillW : CartonsComplex :=
  mkCx false [(0, some ⟨some 40, none⟩), (1, some ⟨some 40, none⟩)]
    ⟨none, none⟩ ⟨none, none⟩ false ⟨none, none⟩

/-- Fixture for the C1 witness, dependent-resize part: three 100-wide panels
with min 50 in a 300-wide container. -/
def cxDepW : CartonsComplex :=
  mkCx false [] ⟨some 50, none⟩ ⟨none, none⟩ false ⟨none, none⟩

/-- Fixture for C2: independent mode, resolved max 50. -/
def cxShrinkMax : CartonsComplex :=
  mkCx true [] ⟨none, none⟩ ⟨some 50, none⟩ false ⟨none, none⟩

/-- Fixture for the C2 witness: independent mode, min 30, max 80. -/
def cxBoundsW : CartonsComplex :=
  mkCx true [] ⟨some 30, none⟩ ⟨some 80, none⟩ false ⟨none, none⟩

/-- Fixture for C3's witness. -/
def cxAtomW : CartonsComplex :=
  mkCx true [] ⟨some 30, none⟩ ⟨none, none⟩ false ⟨none, none⟩

/-- Fixture for C4: independent mode, min 30, collapsible with threshold 10. -/
def cxHyst : CartonsComplex :=
  mkCx true [] ⟨some 30, none⟩ ⟨none, none⟩ true ⟨some 10, none⟩

/-- Fixture for C5: dependent mode, collapsible panels, no bounds. -/
def cxDepZero : CartonsComplex :=
  mkCx false [] ⟨none, none⟩ ⟨none, none⟩ true ⟨none, none⟩

/-- Fixture for the C5 witness: shrink panel pinned at min 20, expand panel
capped at 130 so the freed 20 is absorbed exactly. -/
def cxDepZeroW : CartonsComplex :=
  { cxDepZero with
    min := ⟨[(0, ⟨some 20, none⟩)], ⟨none, none⟩⟩,
    max := ⟨[(1, ⟨some 130, none⟩)], ⟨none, none⟩⟩ }

/-- Fixture for C6: dependent mode, three panels with min 50. -/
def cxCachePrio : CartonsComplex :=
  mkCx false [] ⟨some 50, none⟩ ⟨none, none⟩ false ⟨none, none⟩

/-- The metric produced by the first C6 drag, used by the second. -/
def cxCachePrio2 : CartonsComplex :=
  { cxCachePrio with
    metric := CartonsMetric.newFrom [(0, some 60), (1, some 140), (2, some 100)] 300 }

/-- Fixture for C7: two panels with max 60 in a 150-wide container. -/
def cxFillTwo : CartonsComplex :=
  mkCx false [] ⟨none, none⟩ ⟨some 60, none⟩ false ⟨none, none⟩

/-- Fixture for C8: dependent mode, one rel-bearing and one abs-only entry. -/
def cxIdem : CartonsComplex :=
  mkCx false [(0, some ⟨some 30, some (3/10)⟩), (1, some ⟨some 30, none⟩)]
    ⟨none, none⟩ ⟨none, none⟩ false ⟨none, none⟩

/-- Fixture for the C8 witness: same metric, independent mode, bounds 10/80. -/
def cxIdemW : CartonsComplex :=
  mkCx true [(0, some ⟨some 30, some (3/10)⟩), (1, some ⟨some 30, none⟩)]
    ⟨some 10, none⟩ ⟨some 80, none⟩ false ⟨none, none⟩

/-- Fixture for the C9 witness: dependent mode, three panels with min 50. -/
def cxCacheW : CartonsComplex :=
  mkCx false [] ⟨some 50, none⟩ ⟨none, none⟩ false ⟨none, none⟩

/-- Fixture for the C10 witness: independent mode, no bounds. -/
def cxMetricW : CartonsComplex :=
  mkCx true [] ⟨none, none⟩ ⟨none, none⟩ false ⟨none, none⟩

set_option maxRecDepth 8000

/-- C6: dependent-mode cache-priority round trip. Three panels of size 100
with min 50 in a 300-wide container: dragging the A/B boundary left by 40
yields A=60, B=140, C=100 and records (A, 100) in the session cache; dragging
the same boundary right by 40 with that cache restores A to 100 and shrinks B
back to exactly 100, drawing nothing from C. -/
theorem c6_cache_priority_round_trip :
    cxCachePrio.update_resize_core 300 [(0, 100), (1, 100), (2, 100)] 0 (-40) [] [] [] =
      (.ok (CartonsMetric.newFrom [(0, some 60), (1, some 140), (2, some 100)] 300,
            [(0, some 60), (1, some 140), (2, some 100)], 300),
       [(0, 100)], [(0, 1/3)], []) ∧
    cxCachePrio2.update_resize_core 300 [(0, 60), (1, 140), (2, 100)] 0 40 [(0, 100)] [] [] =
      (.ok (CartonsMetric.newFrom [(0, some 100), (1, some 100), (2, some 100)] 300,
            [(0, some 100), (1, some 100), (2, some 100)], 300),
       [(0, 100), (1, 140)], [(1, 7/15)], []) := by
  constructor <;>
  norm_num [CartonsComplex.update_resize_core, CartonsComplex.measures, CartonsComplex.measuredDS,
    CartonsComplex.zeroed, CartonsComplex.dependent_resizing, CartonsComplex.panelList,
    CartonsComplex.minResolved, CartonsComplex.maxResolved, CartonsComplex.zeroedWhen,
    CartonsComplex.depCase1, CartonsComplex.depCase2, CartonsComplex.absorbExps,
    CartonsComplex.depCase3, CartonsComplex.cachePass, CartonsComplex.frontExpand,
    CartonsComplex.doShrink, CartonsComplex.handle_expanding, CartonsComplex.handle_shrinking,
    CartonsComplex.max_limited, CartonsComplex.adjust_to_fill_blank, CartonsComplex.fillPass1,
    CartonsComplex.fillPass2, CartonsMetric.newFrom, setSize, addSize, addToCache, hmInsert,
    shrinkCapOf, getTotalSize, Sizon.min, Sizon.minAbs, cxCachePrio, cxCachePrio2, mkCx,
    CartonsMap.get, max_def, min_def, abs, lookupN, eraseKey, eraseN, insertN, findPanel, findIndexData,
    CartonsComplex.panelListFrom, List.getLast?, List.head?, List.set, List.get?, Option.map, Option.getD,
    Option.isNone, List.filter, List.erase, List.insert, List.take, List.drop, List.all,
    List.foldl, updateFirst, Int.floor_eq_iff]

/-- C7 counterexample: on panels [40, 40] with max [60, 60] in a 150-wide
container the proportional pass does NOT give each panel +35 up to its max of
60 (proportions are taken against the container extent, not the group total),
and it does NOT exhaust the blank: the rear-first pass still has 1694/45 left
to distribute. -/
theorem c7_counterexample :
    getTotalSize [(0, some 40), (1, some 40)] = 80 ∧
    ((⌊(150 : ℚ) - 80⌋ : ℤ) : ℚ) = 70 ∧
    (cxFillTwo.fillPass1 150 (80, 70) [(0, some 40), (1, some 40)]).2 ≠
      [(0, some 60), (1, some 60)] ∧
    (cxFillTwo.fillPass1 150 (80, 70) [(0, some 40), (1, some 40)]).1.2 ≠ 0 := by
  norm_num [CartonsComplex.fillPass1, CartonsComplex.max_limited, Sizon.min, Sizon.minAbs,
    cxFillTwo, mkCx, CartonsMap.get, getTotalSize, max_def, min_def, lookupN,
    Int.floor_eq_iff]

/-- C7 amended: same input; the proportional pass adds 56/3 and 616/45
(sizes 176/3 and 2416/45, neither at its max of 60), the rear-first pass then
saturates both panels at their max of 60, and the returned total resolves to
120 with each panel at exactly 60 — the fill never exceeds a per-panel max
even though the container is larger. -/
theorem c7_amended :
    cxFillTwo.fillPass1 150 (80, 70) [(0, some 40), (1, some 40)] =
      ((5056/45, 1694/45), [(0, some (176/3)), (1, some (2416/45))]) ∧
    cxFillTwo.adjust_to_fill_blank 150 [(0, some 40), (1, some 40)] =
      (120, [(0, some 60), (1, some 60)]) := by
  norm_num [CartonsComplex.adjust_to_fill_blank, CartonsComplex.fillPass1,
    CartonsComplex.fillPass2, CartonsComplex.max_limited, Sizon.min, Sizon.minAbs,
    cxFillTwo, mkCx, CartonsMap.get, getTotalSize, max_def, min_def, lookupN,
    Int.floor_eq_iff]

/-- C8 counterexample: reconcile is not idempotent in dependent mode. With a
rel-bearing entry (abs 30, rel 3/10) and an abs-only entry (abs 30) in a
100-wide container, the first reconcile produces sizes 42 and 58; running
reconcile again from that metric recomputes the rel-bearing candidate from
its preserved ratio (30 again) and redistributes, producing sizes 168/5 and
332/5 — a different Size State Map. -/
theorem c8_counterexample :
    ({ cxIdem with metric := cxIdem.wrap_effect_on_update 100 [0, 1]
       }).wrap_effect_on_update 100 [0, 1] ≠
      cxIdem.wrap_effect_on_update 100 [0, 1] := by
  norm_num [CartonsComplex.wrap_effect_on_update, CartonsComplex.wrapCandidates,
    CartonsComplex.limited, CartonsComplex.adjust_to_fill_blank, CartonsComplex.fillPass1,
    CartonsComplex.fillPass2, CartonsComplex.max_limited, CartonsMetric.absRevised,
    absRevEntry, CartonsComplex.candOf, Sizon.min, Sizon.minAbs, Sizon.max, Sizon.maxAbs, cxIdem, mkCx, CartonsMap.get,
    getTotalSize, max_def, min_def, lookupN, Option.map, Option.getD, Option.isNone,
    List.set, List.get?, List.take, List.drop, List.foldl, List.filter, List.all,
    Function.comp, CartonsMap.mk.injEq, Sizon.mk.injEq]

/-- C1 counterexample: in dependent mode with aggregate resolved max capacity
unbounded (so at least the container extent 100), a panel whose resolved
minimum is 200 yields a reconciled Size State Map whose size sum is 200 —
not the container extent, and not within any rounding of it. -/
theorem c1_counterexample :
    cxOverflow.independent = false ∧
    capAtLeast (cxOverflow.capsSum 100 (cxOverflow.wrapCandidates 100 [0])) 100 = true ∧
    metricTotal (cxOverflow.wrap_effect_on_update 100 [0]) = 200 ∧
    ¬ |metricTotal (cxOverflow.wrap_effect_on_update 100 [0]) - 100| < 1 := by
  norm_num [CartonsComplex.wrap_effect_on_update, CartonsComplex.wrapCandidates,
    CartonsComplex.limited, CartonsComplex.adjust_to_fill_blank, CartonsComplex.fillPass1,
    CartonsComplex.fillPass2, CartonsComplex.max_limited, CartonsComplex.maxResolved,
    CartonsComplex.capsSum, capAtLeast, metricTotal, CartonsMetric.absRevised,
    absRevEntry, CartonsComplex.candOf, Sizon.min, Sizon.minAbs, Sizon.max, Sizon.maxAbs, cxOverflow, mkCx, CartonsMap.get,
    getTotalSize, max_def, min_def, lookupN, Int.floor_eq_iff]

/-- C2 counterexample: a panel of size 100 with resolved max 50 shrunk by 10
in independent mode commits size 90, which stays above its resolved max, so
the bounds invariant does not hold for all panels after all operations. -/
theorem c2_counterexample :
    (cxShrinkMax.update_resize_core 300 [(0, 100)] 0 (-10) [] [] []).1 =
      .ok (CartonsMetric.newFrom [(0, some 90)] 90, [(0, some 90)], 90) ∧
    cxShrinkMax.maxResolved 0 300 = some 50 ∧ ¬ ((90 : ℚ) ≤ 50) := by
  norm_num [CartonsComplex.update_resize_core, CartonsComplex.measures,
    CartonsComplex.measuredDS, CartonsComplex.zeroed, CartonsComplex.independent_resizing,
    CartonsComplex.handle_shrinking, CartonsComplex.minResolved, CartonsComplex.maxResolved,
    CartonsComplex.zeroedWhen, CartonsMetric.newFrom, setSize, hmInsert, getTotalSize,
    Sizon.min, Sizon.minAbs, cxShrinkMax, mkCx, CartonsMap.get, max_def, min_def,
    lookupN, eraseKey, findIndexData, List.set, List.get?, Option.map,
    Option.getD, Option.isNone]

/-- C4 counterexample: a collapsible panel of size 35 (min 30, collapse
threshold 10) shrunk by exactly 10 — so |delta| meets the collapse-enter
threshold and the raw target 25 is below the minimum — does NOT collapse:
the code requires |delta| to strictly exceed the threshold and signals
Ignorable instead. -/
theorem c4_counterexample :
    cxHyst.independent = true ∧
    cxHyst.minResolved 0 300 = 30 ∧ (35 : ℚ) + (-10) < 30 ∧
    cxHyst.zeroedWhen 0 35 = some 10 ∧ |(-10 : ℚ)| = 10 ∧
    cxHyst.independent_resizing 0 (-10) 300 [(0, some 35)] 0 (some 35) [] [] =
      (.error .ignore, [(0, some 35)], [], []) := by
  norm_num [CartonsComplex.independent_resizing, CartonsComplex.handle_shrinking,
    CartonsComplex.minResolved, CartonsComplex.zeroedWhen, cxHyst, mkCx, CartonsMap.get,
    max_def, min_def, lookupN, hmInsert, eraseKey, setSize, List.set, List.get?]

/-- C5 counterexample: dependent drag with zero ordinary shrink capacity
whose nearest shrink-side panel is collapsible with current size 0: the
threshold (0) is met by the drag capacity and the entire current size
(nothing) is absorbable with exactly zero remainder, yet the operation is
rejected because the absorption list stays empty — the claim's conditions
are not sufficient for a commit. -/
theorem c5_counterexample :
    shrinkCapOf ((cxDepZero.panelList 300 [(0, some 0), (1, some 100)]).take 1).reverse = 0 ∧
    cxDepZero.zeroedWhen 0 0 = some 0 ∧ ((0 : ℚ) ≤ |(-5 : ℚ)|) ∧
    (cxDepZero.absorbExps 300 0
      ((cxDepZero.panelList 300 [(0, some 0), (1, some 100)]).drop 1)).1 = 0 ∧
    cxDepZero.dependent_resizing (-5) 300 [(0, some 0), (1, some 100)] 0 [] [] [] =
      (.error .ignore, [(0, some 0), (1, some 100)], [], [], []) := by
  norm_num [CartonsComplex.dependent_resizing, CartonsComplex.panelList,
    CartonsComplex.depCase1, CartonsComplex.depCase2, CartonsComplex.depCase3,
    CartonsComplex.minResolved, CartonsComplex.maxResolved, CartonsComplex.zeroedWhen,
    CartonsComplex.absorbExps, shrinkCapOf, cxDepZero, mkCx, CartonsMap.get,
    max_def, min_def, lookupN, CartonsComplex.panelListFrom, List.head?, List.take,
    List.drop]

/-- C4 amended: in independent mode, for a non-collapsed collapsible panel
(collapse threshold t evaluated against the current size) and a shrinking
delta whose raw target is below the resolved minimum, the panel collapses
(entry becomes none) iff |delta| STRICTLY exceeds t; otherwise the operation
is a no-op signalling Ignorable. -/
theorem c4_amended (cx : CartonsComplex) (d : ℕ) (delta w : ℚ) (ds : DataSizes)
    (index : ℕ) (s t : ℚ) (zc : List (ℕ × ℚ)) (zr : List ℕ)
    (hneg : delta < 0) (hlow : s + delta < cx.minResolved d w)
    (hcoll : cx.zeroedWhen d s = some t) :
    (t < |delta| →
      cx.independent_resizing d delta w ds index (some s) zc zr =
        (.ok (), setSize ds index none, zc, zr)) ∧
    (¬ t < |delta| →
      cx.independent_resizing d delta w ds index (some s) zc zr =
        (.error .ignore, ds, zc, zr)) := by
  have h0 : ¬ delta = 0 := by linarith
  have h1 : ¬ 0 < delta := by linarith
  simp only [CartonsComplex.independent_resizing, if_neg h0, if_neg h1,
    CartonsComplex.handle_shrinking, if_pos hlow, hcoll]
  constructor
  · intro hlt
    rw [if_pos hlt]
  · intro hlt
    rw [if_neg hlt]

/-- Witness for c4_amended: the same panel as the C4 counterexample with
delta -11 (strictly past the threshold) collapses. -/
theorem c4_witness :
    cxHyst.independent_resizing 0 (-11) 300 [(0, some 35)] 0 (some 35) [] [] =
      (.ok (), setSize [(0, some 35)] 0 none, [], []) := by
  refine (c4_amended cxHyst 0 (-11) 300 [(0, some 35)] 0 35 10 [] [] (by norm_num) ?_ ?_).1 ?_
  · norm_num [CartonsComplex.minResolved, cxHyst, mkCx, CartonsMap.get, lookupN]
  · norm_num [CartonsComplex.zeroedWhen, cxHyst, mkCx, CartonsMap.get, lookupN]
  · norm_num

lemma absorbExps_nonpos (cx : CartonsComplex) (w c : ℚ) (l : List PanelInfo)
    (hc : c ≤ 0) : cx.absorbExps w c l = (c, []) := by
  cases l with
  | nil => rfl
  | cons p t => simp only [CartonsComplex.absorbExps, if_pos hc]

lemma absorbExps_snd_nil (cx : CartonsComplex) (w : ℚ) (l : List PanelInfo) (c : ℚ)
    (h : (cx.absorbExps w c l).2 = []) : (cx.absorbExps w c l).1 = c := by
  induction l generalizing c with
  | nil => rfl
  | cons p t ih =>
    by_cases hc : c ≤ 0
    · rw [absorbExps_nonpos cx w c _ hc]
    · simp only [CartonsComplex.absorbExps, if_neg hc] at h ⊢
      cases hp : p.sz with
      | some size => simp [hp] at h
      | none =>
        simp only [hp] at h ⊢
        exact ih c h

lemma depCase1_err (cx : CartonsComplex) (w rc : ℚ) (shrinks expands : List PanelInfo)
    (ds : DataSizes) (cache zc : List (ℕ × ℚ)) (zr : List ℕ) :
    (cx.depCase1 w rc shrinks expands ds cache zc zr).1 ≠ .ok () →
      cx.depCase1 w rc shrinks expands ds cache zc zr =
        (.error .ignore, ds, cache, zc, zr) := by
  simp only [CartonsComplex.depCase1]
  rcases hh : shrinks.head? with _ | p <;> simp only [hh]
  · exact fun a => trivial
  rcases hsz : p.sz with _ | s <;> simp only [hsz]
  · exact fun a => trivial
  rcases hzw : cx.zeroedWhen p.d s with _ | zw <;> simp only [hzw]
  · exact fun a => trivial
  by_cases hcap : zw ≤ rc
  · rw [if_pos hcap]
    by_cases habs : (cx.absorbExps w s expands).2 ≠ [] ∧ (cx.absorbExps w s expands).1 = 0
    · rw [if_pos habs]
      intro hne
      exact absurd rfl hne
    · rw [if_neg habs]
      intro _; rfl
  · rw [if_neg hcap]
    intro _; rfl

lemma depCase1_commit (cx : CartonsComplex) (w rc : ℚ) (shrinks expands : List PanelInfo)
    (ds : DataSizes) (cache zc : List (ℕ × ℚ)) (zr : List ℕ) (p : PanelInfo) (s zw : ℚ)
    (hh : shrinks.head? = some p) (hsz : p.sz = some s) (hpos : 0 < s)
    (hzw : cx.zeroedWhen p.d s = some zw) (hcap : zw ≤ rc)
    (habs : (cx.absorbExps w s expands).1 = 0) :
    cx.depCase1 w rc shrinks expands ds cache zc zr =
      (.ok (), (cx.absorbExps w s expands).2.foldl (fun a q => addSize a q.1 q.2)
                 (setSize ds p.i none),
       addToCache cache p.i s, hmInsert zc p.d (s / w), zr) := by
  have hnil : (cx.absorbExps w s expands).2 ≠ [] := by
    intro hnil2
    have := absorbExps_snd_nil cx w expands s hnil2
    rw [habs] at this
    exact absurd this.symm (ne_of_gt hpos)
  simp only [CartonsComplex.depCase1, hh, hsz, hzw, if_pos hcap,
    if_pos (And.intro hnil habs)]

lemma depCase1_ok_iff (cx : CartonsComplex) (w rc : ℚ) (shrinks expands : List PanelInfo)
    (ds : DataSizes) (cache zc : List (ℕ × ℚ)) (zr : List ℕ) :
    (cx.depCase1 w rc shrinks expands ds cache zc zr).1 = .ok () ↔
      ∃ p s zw, shrinks.head? = some p ∧ p.sz = some s ∧ 0 < s ∧
        cx.zeroedWhen p.d s = some zw ∧ zw ≤ rc ∧
        (cx.absorbExps w s expands).1 = 0 := by
  constructor
  · intro hok
    simp only [CartonsComplex.depCase1] at hok
    rcases hh : shrinks.head? with _ | p <;> simp only [hh] at hok
    · exact absurd hok (by simp)
    rcases hsz : p.sz with _ | s <;> simp only [hsz] at hok
    · exact absurd hok (by simp)
    rcases hzw : cx.zeroedWhen p.d s with _ | zw <;> simp only [hzw] at hok
    · exact absurd hok (by simp)
    by_cases hcap : zw ≤ rc
    · rw [if_pos hcap] at hok
      by_cases habs : (cx.absorbExps w s expands).2 ≠ [] ∧ (cx.absorbExps w s expands).1 = 0
      · have hpos : 0 < s := by
          by_contra hns
          have he := absorbExps_nonpos cx w s expands (le_of_not_lt hns)
          rw [he] at habs
          simp at habs
        exact ⟨p, s, zw, rfl, hsz, hpos, hzw, hcap, habs.2⟩
      · rw [if_neg habs] at hok
        exact absurd hok (by simp)
    · rw [if_neg hcap] at hok
      exact absurd hok (by simp)
  · rintro ⟨p, s, zw, hh, hsz, hpos, hzw, hcap, habs⟩
    rw [depCase1_commit cx w rc shrinks expands ds cache zc zr p s zw hh hsz hpos hzw
      hcap habs]

/-- C5 amended: in the dependent-mode path with zero ordinary shrink
capacity, the operation commits iff the nearest shrink-side panel is
non-collapsed with a POSITIVE current size, is collapsible, the drag capacity
meets or exceeds its collapse-enter threshold, and its entire current size is
absorbed by the expand set up to their max bounds with exactly zero
remainder; in every other case the whole operation is rejected as Ignorable
with no state modified. -/
theorem c5_amended (cx : CartonsComplex) (delta w : ℚ) (ds : DataSizes) (index : ℕ)
    (cache zc : List (ℕ × ℚ)) (zr : List ℕ) (shrinks expands : List PanelInfo)
    (hδ : delta ≠ 0)
    (hs : shrinks = if delta < 0 then ((cx.panelList w ds).take (index + 1)).reverse
                    else (cx.panelList w ds).drop (index + 1))
    (he : expands = if delta < 0 then (cx.panelList w ds).drop (index + 1)
                    else ((cx.panelList w ds).take (index + 1)).reverse)
    (hm : shrinkCapOf shrinks = 0) :
    ((cx.dependent_resizing delta w ds index cache zc zr).1 = .ok () ↔
      ∃ p s zw, shrinks.head? = some p ∧ p.sz = some s ∧ 0 < s ∧
        cx.zeroedWhen p.d s = some zw ∧ zw ≤ |delta| ∧
        (cx.absorbExps w s expands).1 = 0) ∧
    ((cx.dependent_resizing delta w ds index cache zc zr).1 ≠ .ok () →
      cx.dependent_resizing delta w ds index cache zc zr =
        (.error .ignore, ds, cache, zc, zr)) ∧
    (∀ p s zw, shrinks.head? = some p → p.sz = some s → 0 < s →
      cx.zeroedWhen p.d s = some zw → zw ≤ |delta| →
      (cx.absorbExps w s expands).1 = 0 →
      cx.dependent_resizing delta w ds index cache zc zr =
        (.ok (), (cx.absorbExps w s expands).2.foldl (fun a q => addSize a q.1 q.2)
                   (setSize ds p.i none),
         addToCache cache p.i s, hmInsert zc p.d (s / w), zr)) := by
  have hred : cx.dependent_resizing delta w ds index cache zc zr =
      cx.depCase1 w |delta| shrinks expands ds cache zc zr := by
    by_cases hrev : delta < 0
    · rw [if_pos hrev] at hs he
      simp only [CartonsComplex.dependent_resizing, if_neg hδ, decide_eq_true_eq,
        if_pos hrev]
      rw [← hs, ← he, if_pos hm]
    · rw [if_neg hrev] at hs he
      simp only [CartonsComplex.dependent_resizing, if_neg hδ, decide_eq_true_eq,
        if_neg hrev]
      rw [← hs, ← he, if_pos hm]
  rw [hred]
  exact ⟨depCase1_ok_iff cx w |delta| shrinks expands ds cache zc zr,
    depCase1_err cx w |delta| shrinks expands ds cache zc zr,
    fun p s zw hh hsz hpos hzw hcap habs =>
      depCase1_commit cx w |delta| shrinks expands ds cache zc zr p s zw hh hsz hpos
        hzw hcap habs⟩

/-- Witness for c5_amended: panel of size 20 pinned at min 20 (so zero
ordinary shrink capacity) collapses and its 20 is exactly absorbed by the
neighbor capped at 130: the state commits to [collapsed, 120]. -/
theorem c5_witness :
    (cxDepZeroW.dependent_resizing (-5) 300 [(0, some 20), (1, some 100)] 0 [] [] []).2.1 =
      [(0, none), (1, some 120)] := by
  have h := (c5_amended cxDepZeroW (-5) 300 [(0, some 20), (1, some 100)] 0 [] [] []
    [⟨0, 0, some 20, 20⟩] [⟨1, 1, some 100, 0⟩] (by norm_num) ?_ ?_ ?_).2.2
    ⟨0, 0, some 20, 20⟩ 20 0 rfl rfl (by norm_num) ?_ (by norm_num) ?_
  · rw [h]
    norm_num [CartonsComplex.absorbExps, CartonsComplex.maxResolved, cxDepZeroW, cxDepZero,
      mkCx, CartonsMap.get, lookupN, setSize, addSize, List.get?, List.set, max_def, min_def]
  · norm_num [CartonsComplex.panelList, CartonsComplex.panelListFrom,
      CartonsComplex.minResolved, cxDepZeroW, cxDepZero, mkCx, CartonsMap.get, lookupN,
      max_def, min_def]
  · norm_num [CartonsComplex.panelList, CartonsComplex.panelListFrom,
      CartonsComplex.minResolved, cxDepZeroW, cxDepZero, mkCx, CartonsMap.get, lookupN,
      max_def, min_def]
  · norm_num [shrinkCapOf]
  · norm_num [CartonsComplex.zeroedWhen, cxDepZeroW, cxDepZero, mkCx, CartonsMap.get,
      lookupN]
  · norm_num [CartonsComplex.absorbExps, CartonsComplex.maxResolved, cxDepZeroW, cxDepZero,
      mkCx, CartonsMap.get, lookupN, max_def, min_def]

lemma max_limited_char (cx : CartonsComplex) (d : ℕ) (s w : ℚ) (hw : 0 < w) :
    cx.max_limited d s w = optMin (cx.maxResolved d w) s := by
  have hw0 : w ≠ 0 := ne_of_gt hw
  unfold CartonsComplex.max_limited CartonsComplex.maxResolved Sizon.min Sizon.minAbs optMin
  rcases hz : cx.max.get d with ⟨az, rz⟩
  rcases az with _ | a <;> rcases rz with _ | r <;> dsimp only
  · -- abs none, rel some
    split_ifs with h
    · have hlt : r * w < s := by
        have := (lt_div_iff hw).mp h.2
        linarith
      rw [min_eq_right (le_of_lt hlt)]
      ring
    · have hge : s ≤ r * w := by
        rcases not_and_or.mp h with h1 | h2
        · exact absurd hw0 h1
        · have := (div_le_iff hw).mp (not_lt.mp h2)
          linarith
      rw [min_eq_left hge]
  · -- abs some, rel none
    exact min_comm a s
  · -- abs some, rel some
    split_ifs with h
    · have hlt : r * w < Min.min a s := by
        have := (lt_div_iff hw).mp h.2
        linarith
      have h1 : r * w ≤ a := le_of_lt (lt_of_lt_of_le hlt (min_le_left a s))
      have h2 : r * w ≤ s := le_of_lt (lt_of_lt_of_le hlt (min_le_right a s))
      rw [min_eq_right h1, min_eq_right h2]
      ring
    · have hge : Min.min a s ≤ r * w := by
        rcases not_and_or.mp h with h1 | h2
        · exact absurd hw0 h1
        · have := (div_le_iff hw).mp (not_lt.mp h2)
          linarith
      rcases le_total a s with has | has
      · rw [min_eq_left has] at hge ⊢
        rw [min_eq_left hge, min_eq_right has]
      · rw [min_eq_right has] at hge ⊢
        rw [min_eq_left (le_min has hge)]


lemma max_limited_le (cx : CartonsComplex) (d : ℕ) (s w c : ℚ) (hw : 0 < w)
    (hc : cx.maxResolved d w = some c) : cx.max_limited d s w ≤ c := by
  rw [max_limited_char cx d s w hw, hc]
  exact min_le_right _ _

lemma depCase3_fst (cx : CartonsComplex) (w rc : ℚ) (rev : Bool) (li : ℕ) (msc : ℚ)
    (shrinks expands : List PanelInfo) (ds : DataSizes) (cache zc : List (ℕ × ℚ))
    (zr : List ℕ) :
    (cx.depCase3 w rc rev li msc shrinks expands ds cache zc zr).1 = .ok () := rfl

lemma depCase2_err (cx : CartonsComplex) (w rc : ℚ) (rev : Bool) (li : ℕ) (msc : ℚ)
    (shrinks expands : List PanelInfo) (ds : DataSizes) (cache zc : List (ℕ × ℚ))
    (zr : List ℕ) :
    (cx.depCase2 w rc rev li msc shrinks expands ds cache zc zr).1 ≠ .ok () →
      cx.depCase2 w rc rev li msc shrinks expands ds cache zc zr =
        (.error .ignore, ds, cache, zc, zr) := by
  simp only [CartonsComplex.depCase2]
  rcases hh : expands.head? with _ | p <;> simp only [hh]
  · intro hne
    exact absurd (depCase3_fst cx w rc rev li msc shrinks expands ds cache zc zr) hne
  rcases hsz : p.sz with _ | s <;> simp only [hsz]
  · rcases hzw : cx.zeroedWhen p.d 0 with _ | zw <;> simp only [hzw]
    · intro hne
      exact absurd (depCase3_fst cx w rc rev li msc shrinks expands ds cache zc zr) hne
    by_cases hc : zw ≤ rc ∧ p.mn ≤ msc
    · rw [if_pos hc]
      intro hne
      exact absurd rfl hne
    · rw [if_neg hc]
      intro _
      rfl
  · intro hne
    exact absurd (depCase3_fst cx w rc rev li msc shrinks expands ds cache zc zr) hne

lemma indep_atomic (cx : CartonsComplex) (d : ℕ) (delta w : ℚ) (ds : DataSizes)
    (index : ℕ) (size : Option ℚ) (zc : List (ℕ × ℚ)) (zr : List ℕ) :
    (cx.independent_resizing d delta w ds index size zc zr).1 ≠ .ok () →
      cx.independent_resizing d delta w ds index size zc zr =
        (.error .ignore, ds, zc, zr) := by
  simp only [CartonsComplex.independent_resizing]
  by_cases h0 : delta = 0
  · rw [if_pos h0]
    intro _
    rfl
  rw [if_neg h0]
  by_cases h1 : 0 < delta
  · rw [if_pos h1]
    rcases hE : cx.handle_expanding d delta w ds index size (cx.minResolved d w) zr
      with _ | r <;> simp only [hE]
    · exact fun a => trivial
    · intro hne
      exact absurd rfl hne
  · rw [if_neg h1]
    rcases hS : cx.handle_shrinking d delta w ds index size (cx.minResolved d w) zc
      with _ | r <;> simp only [hS]
    · exact fun a => trivial
    · intro hne
      exact absurd rfl hne

lemma dep_atomic (cx : CartonsComplex) (delta w : ℚ) (ds : DataSizes) (index : ℕ)
    (cache zc : List (ℕ × ℚ)) (zr : List ℕ) :
    (cx.dependent_resizing delta w ds index cache zc zr).1 ≠ .ok () →
      cx.dependent_resizing delta w ds index cache zc zr =
        (.error .ignore, ds, cache, zc, zr) := by
  by_cases hδ : delta = 0
  · intro _
    simp only [CartonsComplex.dependent_resizing, if_pos hδ]
  · simp only [CartonsComplex.dependent_resizing, if_neg hδ]
    split_ifs <;>
      first
      | exact depCase1_err _ _ _ _ _ _ _ _ _
      | exact depCase2_err _ _ _ _ _ _ _ _ _ _ _ _

lemma switch_zero_atomic (cx : CartonsComplex) (w : ℚ) (dom : List (ℕ × ℚ)) (d : ℕ)
    (onn : Bool) (e : WError) :
    (cx.switch_zero w dom d onn).1 = .error e → (cx.switch_zero w dom d onn).2 = cx := by
  simp only [CartonsComplex.switch_zero]
  rcases hm : cx.measures dom d with e' | q <;> simp only [hm]
  · exact fun a => trivial
  · rcases hst : cx.switchZeroStep w q.1 q.2.1 q.2.2 d onn with _ | st <;> simp only [hst]
    · exact fun a => trivial
    · intro habs
      split_ifs at habs <;> exact absurd habs (by simp)

lemma update_core_atomic (cx : CartonsComplex) (w : ℚ) (dom : List (ℕ × ℚ)) (d : ℕ)
    (delta : ℚ) (cache zc : List (ℕ × ℚ)) (zr : List ℕ) (e : WError) :
    (cx.update_resize_core w dom d delta cache zc zr).1 = .error e →
      cx.update_resize_core w dom d delta cache zc zr = (.error e, cache, zc, zr) := by
  simp only [CartonsComplex.update_resize_core]
  rcases hm : cx.measures dom d with e' | q <;> simp only [hm]
  · intro he
    simp only [Except.error.injEq] at he
    rw [he]
  · split_ifs with hi
    · rcases hI : cx.independent_resizing d delta w q.1 q.2.1 q.2.2 zc zr
        with ⟨r1, ds1, zc1, zr1⟩
      rcases r1 with e1 | u <;> simp only [hI]
      · intro he
        simp only [Except.error.injEq] at he
        have h2 := indep_atomic cx d delta w q.1 q.2.1 q.2.2 zc zr
        rw [hI] at h2
        have h3 := h2 (by simp)
        simp only [Prod.mk.injEq] at h3
        rw [he, h3.2.2.1, h3.2.2.2]
      · intro habs
        exact absurd habs (by simp)
    · rcases hD : cx.dependent_resizing delta w q.1 q.2.1 cache zc zr
        with ⟨r1, ds1, cache1, zc1, zr1⟩
      rcases r1 with e1 | u <;> simp only [hD]
      · intro he
        simp only [Except.error.injEq] at he
        have h2 := dep_atomic cx delta w q.1 q.2.1 cache zc zr
        rw [hD] at h2
        have h3 := h2 (by simp)
        simp only [Prod.mk.injEq] at h3
        rw [he, h3.2.2.1, h3.2.2.2.1, h3.2.2.2.2]
      · intro habs
        exact absurd habs (by simp)

/-- C3: error atomicity. Whenever independent_resizing, dependent_resizing,
switch_zero or update_resize returns an error (Ignorable or Message), every
piece of mutable state it received — the data sizes, the gesture cache, the
zeroed cache, the zero-restored set, and for switch_zero the complex itself —
is returned exactly as it was: no partial-cascade state is observable.
(Reconcile, wrap_effect_on_update, computes a fresh metric without mutating
any state, so it satisfies this vacuously.) -/
theorem c3_error_atomicity :
    (∀ (cx : CartonsComplex) (d : ℕ) (delta w : ℚ) (ds : DataSizes) (index : ℕ)
      (size : Option ℚ) (zc : List (ℕ × ℚ)) (zr : List ℕ),
      (cx.independent_resizing d delta w ds index size zc zr).1 ≠ .ok () →
      cx.independent_resizing d delta w ds index size zc zr =
        (.error .ignore, ds, zc, zr)) ∧
    (∀ (cx : CartonsComplex) (delta w : ℚ) (ds : DataSizes) (index : ℕ)
      (cache zc : List (ℕ × ℚ)) (zr : List ℕ),
      (cx.dependent_resizing delta w ds index cache zc zr).1 ≠ .ok () →
      cx.dependent_resizing delta w ds index cache zc zr =
        (.error .ignore, ds, cache, zc, zr)) ∧
    (∀ (cx : CartonsComplex) (w : ℚ) (dom : List (ℕ × ℚ)) (d : ℕ) (onn : Bool)
      (e : WError),
      (cx.switch_zero w dom d onn).1 = .error e → (cx.switch_zero w dom d onn).2 = cx) ∧
    (∀ (cx : CartonsComplex) (w : ℚ) (dom : List (ℕ × ℚ)) (d : ℕ) (delta : ℚ)
      (cache zc : List (ℕ × ℚ)) (zr : List ℕ) (e : WError),
      (cx.update_resize_core w dom d delta cache zc zr).1 = .error e →
      cx.update_resize_core w dom d delta cache zc zr = (.error e, cache, zc, zr)) :=
  ⟨indep_atomic, dep_atomic, switch_zero_atomic, update_core_atomic⟩

/-- Witness for c3_error_atomicity: a zero delta in independent mode, a
collapse toggle on an already-sized panel, and a resize addressed to an
absent panel id all error and leave the state untouched. -/
theorem c3_witness :
    cxAtomW.independent_resizing 0 0 300 [(0, some 50)] 0 (some 50) [] [] =
      (.error .ignore, [(0, some 50)], [], []) ∧
    (cxAtomW.switch_zero 300 [(0, 50)] 0 true).2 = cxAtomW ∧
    cxAtomW.update_resize_core 300 [(0, 50)] 5 10 [] [] [] =
      (.error (.msg "data is not found"), [], [], []) := by
  refine ⟨c3_error_atomicity.1 cxAtomW 0 0 300 [(0, some 50)] 0 (some 50) [] [] ?_,
    c3_error_atomicity.2.2.1 cxAtomW 300 [(0, 50)] 0 true .ignore ?_,
    c3_error_atomicity.2.2.2 cxAtomW 300 [(0, 50)] 5 10 [] [] [] (.msg "data is not found") ?_⟩
  · norm_num [CartonsComplex.independent_resizing]
    exact fun h => Except.noConfusion h
  · norm_num [CartonsComplex.switch_zero, CartonsComplex.switchZeroStep,
      CartonsComplex.measures, CartonsComplex.measuredDS, CartonsComplex.zeroed,
      cxAtomW, mkCx, CartonsMap.get, lookupN, findIndexData]
  · norm_num [CartonsComplex.update_resize_core, CartonsComplex.measures,
      CartonsComplex.measuredDS, CartonsComplex.zeroed, cxAtomW, mkCx, CartonsMap.get,
      lookupN, findIndexData]

lemma addToCache_append (cache : List (ℕ × ℚ)) (i : ℕ) (s : ℚ) :
    ∃ ext, addToCache cache i s = cache ++ ext := by
  unfold addToCache
  split_ifs
  · exact ⟨[(i, s)], rfl⟩
  · exact ⟨[], (List.append_nil _).symm⟩

lemma addToCache_nodup (cache : List (ℕ × ℚ)) (i : ℕ) (s : ℚ)
    (h : (cache.map Prod.fst).Nodup) :
    ((addToCache cache i s).map Prod.fst).Nodup := by
  unfold addToCache
  split_ifs with hall
  · rw [List.map_append]
    rw [List.nodup_append]
    refine ⟨h, List.nodup_singleton _, ?_⟩
    intro x hx hx2
    simp only [List.map_cons, List.map_nil, List.mem_singleton] at hx2
    subst hx2
    rcases List.mem_map.mp hx with ⟨p, hp, hpx⟩
    exact hall p hp hpx
  · exact h

lemma lookupN_append_left {V : Type} (i : ℕ) (v : V) (l ext : List (ℕ × V))
    (h : lookupN i l = some v) : lookupN i (l ++ ext) = some v := by
  induction l with
  | nil => exact absurd h (by simp [lookupN])
  | cons p t ih =>
    rcases p with ⟨k, v'⟩
    simp only [lookupN, List.cons_append] at h ⊢
    by_cases hp : k = i
    · rw [if_pos hp] at h ⊢
      exact h
    · rw [if_neg hp] at h ⊢
      exact ih h

lemma doShrink_cache (cx : CartonsComplex) (w : ℚ) (l : List PanelInfo) :
    ∀ (cap : ℚ) (ds : DataSizes) (zc cache : List (ℕ × ℚ)),
    ∃ ext, (cx.doShrink w cap l ds zc cache).2.2 = cache ++ ext ∧
      ((cache.map Prod.fst).Nodup →
        (((cx.doShrink w cap l ds zc cache).2.2).map Prod.fst).Nodup) := by
  induction l with
  | nil =>
    intro cap ds zc cache
    exact ⟨[], (List.append_nil _).symm, fun h => h⟩
  | cons p rest ih =>
    intro cap ds zc cache
    unfold CartonsComplex.doShrink
    by_cases hcap : cap ≤ 0
    · rw [if_pos hcap]
      exact ⟨[], (List.append_nil _).symm, fun h => h⟩
    rw [if_neg hcap]
    rcases hsz : p.sz with _ | size <;> simp only [hsz]
    · exact ih cap ds zc cache
    split_ifs with hd
    · rcases hneg : cx.handle_shrinking p.d (-(Min.min (size - p.mn) cap)) w ds p.i
        (some size) p.mn zc with _ | r <;> simp only [hneg]
      · exact ih cap ds zc cache
      · rcases r with ⟨ns, ds2, zc2⟩
        rcases ih (cap - (size - ns)) ds2 zc2 (addToCache cache p.i size)
          with ⟨ext1, he1, hn1⟩
        rcases addToCache_append cache p.i size with ⟨ext0, he0⟩
        refine ⟨ext0 ++ ext1, ?_, ?_⟩
        · rw [he1, he0, List.append_assoc]
        · intro hnd
          exact hn1 (addToCache_nodup cache p.i size hnd)
    · exact ih cap ds zc cache

lemma depCase1_cache (cx : CartonsComplex) (w rc : ℚ) (shrinks expands : List PanelInfo)
    (ds : DataSizes) (cache zc : List (ℕ × ℚ)) (zr : List ℕ) :
    ∃ ext, (cx.depCase1 w rc shrinks expands ds cache zc zr).2.2.1 = cache ++ ext ∧
      ((cache.map Prod.fst).Nodup →
        (((cx.depCase1 w rc shrinks expands ds cache zc zr).2.2.1).map Prod.fst).Nodup) := by
  simp only [CartonsComplex.depCase1]
  rcases hh : shrinks.head? with _ | p <;> simp only [hh]
  · exact ⟨[], (List.append_nil _).symm, fun h => h⟩
  rcases hsz : p.sz with _ | s <;> simp only [hsz]
  · exact ⟨[], (List.append_nil _).symm, fun h => h⟩
  rcases hzw : cx.zeroedWhen p.d s with _ | zw <;> simp only [hzw]
  · exact ⟨[], (List.append_nil _).symm, fun h => h⟩
  split_ifs with h1 h2
  · rcases addToCache_append cache p.i s with ⟨ext0, he0⟩
    exact ⟨ext0, he0, fun h => addToCache_nodup cache p.i s h⟩
  · exact ⟨[], (List.append_nil _).symm, fun h => h⟩
  · exact ⟨[], (List.append_nil _).symm, fun h => h⟩

lemma depCase3_cache (cx : CartonsComplex) (w rc : ℚ) (rev : Bool) (li : ℕ) (msc : ℚ)
    (shrinks expands : List PanelInfo) (ds : DataSizes) (cache zc : List (ℕ × ℚ))
    (zr : List ℕ) :
    ∃ ext, (cx.depCase3 w rc rev li msc shrinks expands ds cache zc zr).2.2.1 = cache ++ ext ∧
      ((cache.map Prod.fst).Nodup →
        (((cx.depCase3 w rc rev li msc shrinks expands ds cache zc zr).2.2.1).map
          Prod.fst).Nodup) := by
  simp only [CartonsComplex.depCase3]
  exact doShrink_cache cx w shrinks _ _ zc cache

lemma depCase2_cache (cx : CartonsComplex) (w rc : ℚ) (rev : Bool) (li : ℕ) (msc : ℚ)
    (shrinks expands : List PanelInfo) (ds : DataSizes) (cache zc : List (ℕ × ℚ))
    (zr : List ℕ) :
    ∃ ext, (cx.depCase2 w rc rev li msc shrinks expands ds cache zc zr).2.2.1 = cache ++ ext ∧
      ((cache.map Prod.fst).Nodup →
        (((cx.depCase2 w rc rev li msc shrinks expands ds cache zc zr).2.2.1).map
          Prod.fst).Nodup) := by
  simp only [CartonsComplex.depCase2]
  rcases hh : expands.head? with _ | p <;> simp only [hh]
  · exact depCase3_cache cx w rc rev li msc shrinks expands ds cache zc zr
  rcases hsz : p.sz with _ | s <;> simp only [hsz]
  · rcases hzw : cx.zeroedWhen p.d 0 with _ | zw <;> simp only [hzw]
    · exact depCase3_cache cx w rc rev li msc shrinks expands ds cache zc zr
    split_ifs with hc
    · exact doShrink_cache cx w shrinks p.mn _ zc cache
    · exact ⟨[], (List.append_nil _).symm, fun h => h⟩
  · exact depCase3_cache cx w rc rev li msc shrinks expands ds cache zc zr

/-- C9: throughout a dependent-mode gesture the session cache only ever
grows at the tail and keeps at most one entry per panel index: existing
entries (the earliest recorded pre-shrink sizes) are never overwritten, so a
lookup that succeeded before the call returns the same size after it. -/
theorem c9_cache_uniqueness (cx : CartonsComplex) (delta w : ℚ) (ds : DataSizes)
    (index : ℕ) (cache zc : List (ℕ × ℚ)) (zr : List ℕ)
    (hnd : (cache.map Prod.fst).Nodup) :
    ∃ ext, (cx.dependent_resizing delta w ds index cache zc zr).2.2.1 = cache ++ ext ∧
      (((cx.dependent_resizing delta w ds index cache zc zr).2.2.1).map Prod.fst).Nodup ∧
      ∀ (i : ℕ) (v : ℚ), lookupN i cache = some v →
        lookupN i ((cx.dependent_resizing delta w ds index cache zc zr).2.2.1) =
          some v := by
  have key : ∃ ext, (cx.dependent_resizing delta w ds index cache zc zr).2.2.1 =
      cache ++ ext ∧
      ((cache.map Prod.fst).Nodup →
        (((cx.dependent_resizing delta w ds index cache zc zr).2.2.1).map
          Prod.fst).Nodup) := by
    by_cases hδ : delta = 0
    · simp only [CartonsComplex.dependent_resizing, if_pos hδ]
      exact ⟨[], (List.append_nil _).symm, fun h => h⟩
    · simp only [CartonsComplex.dependent_resizing, if_neg hδ]
      split_ifs
      · exact depCase1_cache _ _ _ _ _ _ _ _ _
      · exact depCase2_cache _ _ _ _ _ _ _ _ _ _ _ _
      · exact depCase1_cache _ _ _ _ _ _ _ _ _
      · exact depCase2_cache _ _ _ _ _ _ _ _ _ _ _ _
  rcases key with ⟨ext, he, hn⟩
  refine ⟨ext, he, hn hnd, ?_⟩
  intro i v hv
  rw [he]
  exact lookupN_append_left i v cache ext hv

/-- Witness for c9_cache_uniqueness: the reverse drag of the C6 scenario,
starting from a cache holding (0, 100). -/
theorem c9_witness :
    ∃ ext, (cxCacheW.dependent_resizing 40 300 [(0, some 60), (1, some 140), (2, some 100)]
        0 [(0, 100)] [] []).2.2.1 = [(0, 100)] ++ ext ∧
      (((cxCacheW.dependent_resizing 40 300 [(0, some 60), (1, some 140), (2, some 100)]
        0 [(0, 100)] [] []).2.2.1).map Prod.fst).Nodup ∧
      ∀ (i : ℕ) (v : ℚ), lookupN i [(0, 100)] = some v →
        lookupN i ((cxCacheW.dependent_resizing 40 300
          [(0, some 60), (1, some 140), (2, some 100)] 0 [(0, 100)] [] []).2.2.1) =
          some v :=
  c9_cache_uniqueness cxCacheW 40 300 [(0, some 60), (1, some 140), (2, some 100)]
    0 [(0, 100)] [] [] (by simp)

lemma lookupN_map_keyfun {A B : Type} (g : ℕ → A → B) (ds : List (ℕ × A)) (d : ℕ)
    (a : A) (hnd : (ds.map Prod.fst).Nodup) (hmem : (d, a) ∈ ds) :
    lookupN d (ds.map (fun p => (p.1, g p.1 p.2))) = some (g d a) := by
  induction ds with
  | nil => cases hmem
  | cons p t ih =>
    rcases p with ⟨k, v⟩
    simp only [List.map_cons, lookupN]
    simp only [List.map_cons, List.nodup_cons] at hnd
    by_cases hk : k = d
    · rw [if_pos hk]
      subst hk
      rcases List.mem_cons.mp hmem with he | ht
      · rw [(Prod.mk.injEq _ _ _ _).mp he.symm |>.2]
      · exact absurd (List.mem_map.mpr ⟨(k, a), ht, rfl⟩) hnd.1
    · rw [if_neg hk]
      rcases List.mem_cons.mp hmem with he | ht
      · exact absurd ((Prod.mk.injEq _ _ _ _).mp he.symm).1 hk
      · exact ih hnd.2 ht

lemma lookupN_map {A B : Type} (f : ℕ × A → ℕ × B) (hf : ∀ p, (f p).1 = p.1)
    (ds : List (ℕ × A)) (d : ℕ) (a : A) (hnd : (ds.map Prod.fst).Nodup)
    (hmem : (d, a) ∈ ds) : lookupN d (ds.map f) = some (f (d, a)).2 := by
  induction ds with
  | nil => cases hmem
  | cons p t ih =>
    rcases hfp : f p with ⟨k2, v2⟩
    simp only [List.map_cons, lookupN, hfp]
    simp only [List.map_cons, List.nodup_cons] at hnd
    have hk2 : k2 = p.1 := by
      have := hf p
      rw [hfp] at this
      exact this
    by_cases hk : k2 = d
    · rw [if_pos hk]
      rcases List.mem_cons.mp hmem with he | ht
      · rw [← he] at hfp
        rw [hfp]
      · exfalso
        rw [hk2] at hk
        exact hnd.1 (hk ▸ List.mem_map.mpr ⟨(d, a), ht, by rw [← hk]⟩)
    · rw [if_neg hk]
      rcases List.mem_cons.mp hmem with he | ht
      · exfalso
        apply hk
        rw [hk2, ← he]
      · exact ih hnd.2 ht

lemma newFrom_get_some (ds : DataSizes) (total : ℚ) (d : ℕ) (s : ℚ)
    (hnd : (ds.map Prod.fst).Nodup) (hmem : (d, some s) ∈ ds) :
    (CartonsMetric.newFrom ds total).get d = some ⟨some s, some (s / total)⟩ := by
  unfold CartonsMetric.newFrom CartonsMap.get
  rw [lookupN_map_keyfun (fun _ sz => sz.map (fun x => Sizon.mk (some x) (some (x / total))))
    ds d (some s) hnd hmem]
  rfl

lemma newFrom_get_none (ds : DataSizes) (total : ℚ) (d : ℕ)
    (hnd : (ds.map Prod.fst).Nodup) (hmem : (d, (none : Option ℚ)) ∈ ds) :
    (CartonsMetric.newFrom ds total).get d = none := by
  unfold CartonsMetric.newFrom CartonsMap.get
  rw [lookupN_map_keyfun (fun _ sz => sz.map (fun x => Sizon.mk (some x) (some (x / total))))
    ds d none hnd hmem]
  rfl

lemma absRevised_get_some (m : CartonsMetric) (ds : DataSizes) (total : ℚ) (d : ℕ)
    (s : ℚ) (z : Sizon) (hnd : (ds.map Prod.fst).Nodup) (hmem : (d, some s) ∈ ds)
    (hz : m.get d = some z) :
    (m.absRevised ds total).get d = some ⟨some s, z.rel⟩ := by
  unfold CartonsMetric.absRevised CartonsMap.get
  rw [lookupN_map_keyfun (absRevEntry m) ds d (some s) hnd hmem]
  simp only [absRevEntry, hz]

lemma update_core_newFrom (cx : CartonsComplex) (w : ℚ) (dom : List (ℕ × ℚ)) (d : ℕ)
    (delta : ℚ) (cache zc : List (ℕ × ℚ)) (zr : List ℕ) (m : CartonsMetric)
    (dsF : DataSizes) (t : ℚ)
    (h : (cx.update_resize_core w dom d delta cache zc zr).1 = .ok (m, dsF, t)) :
    m = CartonsMetric.newFrom dsF t := by
  simp only [CartonsComplex.update_resize_core] at h
  rcases hm : cx.measures dom d with e' | q <;> simp only [hm] at h
  · exact absurd h (by simp)
  · split_ifs at h with hi
    · rcases hI : cx.independent_resizing d delta w q.1 q.2.1 q.2.2 zc zr
        with ⟨r1, ds1, zc1, zr1⟩
      rcases r1 with e1 | u <;> simp only [hI] at h
      · exact absurd h (by simp)
      · injection h with h2
        have e1 := congrArg Prod.fst h2
        have e2 := congrArg (fun x => x.2.1) h2
        have e3 := congrArg (fun x => x.2.2) h2
        simp only at e1 e2 e3
        rw [← e1, ← e2, ← e3]
    · rcases hD : cx.dependent_resizing delta w q.1 q.2.1 cache zc zr
        with ⟨r1, ds1, cache1, zc1, zr1⟩
      rcases r1 with e1 | u <;> simp only [hD] at h
      · exact absurd h (by simp)
      · injection h with h2
        have e1 := congrArg Prod.fst h2
        have e2 := congrArg (fun x => x.2.1) h2
        have e3 := congrArg (fun x => x.2.2) h2
        simp only at e1 e2 e3
        rw [← e1, ← e2, ← e3]

/-- C10: every successful update_resize returns the metric rebuilt from
scratch by new_from: each non-collapsed panel's entry has abs equal to its
new size and rel recomputed as size over the NEW GROUP TOTAL (not the
container extent); collapsed panels map to none; the default entry is the
total as an abs-only Sizon. Prior stored ratios do not enter new_from at
all — unlike reconcile's abs_revised, which preserves the stored rel. -/
theorem c10_metric_rebuild :
    (∀ (cx : CartonsComplex) (w : ℚ) (dom : List (ℕ × ℚ)) (d : ℕ) (delta : ℚ)
      (cache zc : List (ℕ × ℚ)) (zr : List ℕ) (m : CartonsMetric) (dsF : DataSizes)
      (t : ℚ),
      (cx.update_resize_core w dom d delta cache zc zr).1 = .ok (m, dsF, t) →
      m = CartonsMetric.newFrom dsF t) ∧
    (∀ (ds : DataSizes) (total : ℚ) (d : ℕ) (s : ℚ),
      (ds.map Prod.fst).Nodup → (d, some s) ∈ ds →
      (CartonsMetric.newFrom ds total).get d = some ⟨some s, some (s / total)⟩) ∧
    (∀ (ds : DataSizes) (total : ℚ) (d : ℕ),
      (ds.map Prod.fst).Nodup → (d, (none : Option ℚ)) ∈ ds →
      (CartonsMetric.newFrom ds total).get d = none) ∧
    (∀ (ds : DataSizes) (total : ℚ),
      (CartonsMetric.newFrom ds total).default = some ⟨some total, none⟩) ∧
    (∀ (m : CartonsMetric) (ds : DataSizes) (total : ℚ) (d : ℕ) (s : ℚ) (z : Sizon),
      (ds.map Prod.fst).Nodup → (d, some s) ∈ ds → m.get d = some z →
      (m.absRevised ds total).get d = some ⟨some s, z.rel⟩) :=
  ⟨update_core_newFrom, newFrom_get_some, newFrom_get_none, fun _ _ => rfl,
    absRevised_get_some⟩

/-- Witness for c10_metric_rebuild: an independent expansion of panel 0 from
50 to 60 (group total 100 in a 300-wide container): the returned metric is
new_from of the final sizes, entry 0 carries rel 60/100 (the group total,
not the container extent), and abs_revised (reconcile) would instead have
preserved a stored rel such as 1/4. -/
theorem c10_witness :
    CartonsMetric.newFrom [(0, some 60), (1, some 40)] 100 =
      CartonsMetric.newFrom [(0, some 60), (1, some 40)] 100 ∧
    (CartonsMetric.newFrom [(0, some 60), (1, some 40)] 100).get 0 =
      some ⟨some 60, some (60 / 100)⟩ ∧
    (CartonsMetric.newFrom [(0, some 60), (1, some 40)] 100).default =
      some ⟨some 100, none⟩ ∧
    (CartonsMetric.absRevised ⟨[(0, some ⟨some 50, some (1/4)⟩)], none⟩
      [(0, some 60), (1, some 40)] 100).get 0 = some ⟨some 60, some (1/4)⟩ := by
  refine ⟨?_, ?_, ?_, ?_⟩
  · refine c10_metric_rebuild.1 cxMetricW 300 [(0, 50), (1, 40)] 0 10 [] [] []
      (CartonsMetric.newFrom [(0, some 60), (1, some 40)] 100)
      [(0, some 60), (1, some 40)] 100 ?_
    norm_num [CartonsComplex.update_resize_core, CartonsComplex.measures,
      CartonsComplex.measuredDS, CartonsComplex.zeroed, CartonsComplex.independent_resizing,
      CartonsComplex.handle_expanding, CartonsComplex.minResolved, CartonsComplex.max_limited,
      Sizon.min, Sizon.minAbs, getTotalSize, setSize, cxMetricW, mkCx, CartonsMap.get,
      lookupN, findIndexData, List.get?, List.set, max_def, min_def]
  · exact c10_metric_rebuild.2.1 [(0, some 60), (1, some 40)] 100 0 60 (by simp)
      (by simp)
  · exact c10_metric_rebuild.2.2.2.1 [(0, some 60), (1, some 40)] 100
  · exact c10_metric_rebuild.2.2.2.2 ⟨[(0, some ⟨some 50, some (1/4)⟩)], none⟩
      [(0, some 60), (1, some 40)] 100 0 60 ⟨some 50, some (1/4)⟩
      (by simp) (by simp) (by norm_num [CartonsMap.get, lookupN])
lemma sizon_max_floor (cx : CartonsComplex) (d : ℕ) (t w : ℚ) (hw : 0 < w) :
    Sizon.max (cx.min.get d) t (some w) = optMax (cx.floorResolved d w) t := by
  have hw0 : w ≠ 0 := ne_of_gt hw
  unfold Sizon.max Sizon.maxAbs CartonsComplex.floorResolved optMax
  rcases hz : cx.min.get d with ⟨az, rz⟩
  rcases az with _ | a <;> rcases rz with _ | r <;> dsimp only
  · -- abs none, rel some
    split_ifs with h
    · rw [max_eq_right (le_of_lt ((div_lt_iff hw).mp h.2))]
      ring
    · have hge : r * w ≤ t := by
        rcases not_and_or.mp h with h1 | h2
        · exact absurd hw0 h1
        · exact (le_div_iff hw).mp (not_lt.mp h2)
      rw [max_eq_left hge]
  · -- abs some, rel none
    exact max_comm a t
  · -- abs some, rel some
    split_ifs with h
    · have hlt : Max.max a t < r * w := (div_lt_iff hw).mp h.2
      rw [max_eq_right (le_of_lt (lt_of_le_of_lt (le_max_left a t) hlt)),
          max_eq_right (le_of_lt (lt_of_le_of_lt (le_max_right a t) hlt))]
      ring
    · have hge : r * w ≤ Max.max a t := by
        rcases not_and_or.mp h with h1 | h2
        · exact absurd hw0 h1
        · exact (le_div_iff hw).mp (not_lt.mp h2)
      rcases le_total a t with hat | hta
      · rw [max_eq_right hat] at hge ⊢
        rw [max_eq_left (max_le hat hge)]
      · rw [max_eq_left hta] at hge ⊢
        rw [max_eq_left hge, max_eq_right hta]

lemma limited_char (cx : CartonsComplex) (d : ℕ) (s w : ℚ) (hw : 0 < w) :
    cx.limited d s w = optMax (cx.floorResolved d w) (optMin (cx.maxResolved d w) s) := by
  show Sizon.max (cx.min.get d) (cx.max_limited d s w) (some w)
    = optMax (cx.floorResolved d w) (optMin (cx.maxResolved d w) s)
  rw [max_limited_char cx d s w hw]
  exact sizon_max_floor cx d (optMin (cx.maxResolved d w) s) w hw

lemma optClamp_idem (f c : Option ℚ) (s : ℚ) :
    optMax f (optMin c (optMax f (optMin c s))) = optMax f (optMin c s) := by
  rcases c with _ | c <;> rcases f with _ | f <;> simp only [optMin, optMax]
  · rw [max_assoc, max_self]
  · rw [min_assoc, min_self]
  · rcases le_total f c with hfc | hcf
    · have h1 : Max.max (Min.min s c) f ≤ c := max_le (min_le_right s c) hfc
      rw [min_eq_left h1, max_assoc, max_self]
    · have h2 : Max.max (Min.min s c) f = f :=
        max_eq_right (le_trans (min_le_right s c) hcf)
      rw [h2, min_eq_right hcf, max_eq_right hcf]

lemma limited_idem (cx : CartonsComplex) (d : ℕ) (s w : ℚ) (hw : 0 < w) :
    cx.limited d (cx.limited d s w) w = cx.limited d s w := by
  rw [limited_char cx d (cx.limited d s w) w hw, limited_char cx d s w hw]
  exact optClamp_idem _ _ _

lemma lookupN_map_comp {B C : Type} (F : ℕ → B) (g : ℕ → B → C) (datas : List ℕ)
    (d : ℕ) (hd : d ∈ datas) :
    lookupN d ((datas.map (fun x => (x, F x))).map (fun p => (p.1, g p.1 p.2)))
      = some (g d (F d)) := by
  induction datas with
  | nil => cases hd
  | cons k t ih =>
    simp only [List.map_cons, lookupN]
    by_cases hk : k = d
    · subst hk
      rw [if_pos rfl]
    · rw [if_neg hk]
      refine ih ?_
      rcases List.mem_cons.mp hd with h1 | h2
      · exact absurd h1.symm hk
      · exact h2

lemma wrap_indep (cx : CartonsComplex) (w : ℚ) (datas : List ℕ)
    (hi : cx.independent = true) :
    cx.wrap_effect_on_update w datas =
      CartonsMetric.absRevised cx.metric (cx.wrapCandidates w datas)
        (getTotalSize (cx.wrapCandidates w datas)) := by
  obtain ⟨lat, ind, met, mn, mx, az, zw, zc⟩ := cx
  dsimp only at hi
  subst hi
  rfl

lemma absRevised_congr (m m' : CartonsMetric) (ds : DataSizes) (t : ℚ)
    (h : ∀ p ∈ ds, absRevEntry m' p.1 p.2 = absRevEntry m p.1 p.2) :
    CartonsMetric.absRevised m' ds t = CartonsMetric.absRevised m ds t := by
  unfold CartonsMetric.absRevised
  congr 1
  exact List.map_congr_left (fun p hp => by rw [h p hp])

/-- C8. Reconcile is idempotent in independent mode: running
wrap_effect_on_update a second time from the metric the first call produced
returns the first call's metric unchanged. -/
theorem c8_amended (cx : CartonsComplex) (w : ℚ) (datas : List ℕ)
    (hi : cx.independent = true) (hw : 0 < w) :
    ({ cx with metric := cx.wrap_effect_on_update w datas }).wrap_effect_on_update w datas
      = cx.wrap_effect_on_update w datas := by
  have hget : ∀ e, e ∈ datas →
      (CartonsMetric.absRevised cx.metric (cx.wrapCandidates w datas)
        (getTotalSize (cx.wrapCandidates w datas))).get e
      = absRevEntry cx.metric e (cx.candOf w e) := by
    intro e he
    unfold CartonsMetric.absRevised CartonsMap.get CartonsComplex.wrapCandidates
    rw [lookupN_map_comp (cx.candOf w) (absRevEntry cx.metric) datas e he]
  have hcand : ∀ e, e ∈ datas →
      CartonsComplex.candOf
        { cx with
          metric := CartonsMetric.absRevised cx.metric (cx.wrapCandidates w datas)
              (getTotalSize (cx.wrapCandidates w datas)) } w e
      = cx.candOf w e := by
    intro e he
    show ((CartonsMetric.absRevised cx.metric (cx.wrapCandidates w datas)
        (getTotalSize (cx.wrapCandidates w datas))).get e).map (fun z =>
        cx.limited e (match z.rel with | some r => w * r | none => z.abs.getD 0) w)
      = cx.candOf w e
    rw [hget e he]
    rcases hz : cx.metric.get e with _ | z
    · have hc : cx.candOf w e = none := by
        unfold CartonsComplex.candOf
        rw [hz]
        rfl
      rw [hc]
      rfl
    · rcases z with ⟨za, zr⟩
      rcases zr with _ | r
      · have hc : cx.candOf w e = some (cx.limited e (za.getD 0) w) := by
          unfold CartonsComplex.candOf
          rw [hz]
          rfl
        rw [hc]
        unfold absRevEntry
        rw [hz]
        show some (cx.limited e (cx.limited e (za.getD 0) w) w)
          = some (cx.limited e (za.getD 0) w)
        exact congrArg some (limited_idem cx e (za.getD 0) w hw)
      · have hc : cx.candOf w e = some (cx.limited e (w * r) w) := by
          unfold CartonsComplex.candOf
          rw [hz]
          rfl
        rw [hc]
        unfold absRevEntry
        rw [hz]
        rfl
  have hi2 : ({ cx with metric := cx.wrap_effect_on_update w datas } :
      CartonsComplex).independent = true := hi
  rw [wrap_indep _ w datas hi2, wrap_indep cx w datas hi]
  have hCC : ({ cx with
      metric := CartonsMetric.absRevised cx.metric (cx.wrapCandidates w datas)
          (getTotalSize (cx.wrapCandidates w datas)) } :
      CartonsComplex).wrapCandidates w datas = cx.wrapCandidates w datas := by
    show datas.map (fun e => (e, CartonsComplex.candOf
        { cx with
          metric := CartonsMetric.absRevised cx.metric (cx.wrapCandidates w datas)
              (getTotalSize (cx.wrapCandidates w datas)) } w e))
      = datas.map (fun e => (e, cx.candOf w e))
    exact List.map_congr_left (fun e he => congrArg (fun x => (e, x)) (hcand e he))
  rw [hCC]
  have hmp : ∀ m : CartonsMetric,
      ({ cx with metric := m } : CartonsComplex).metric = m := fun _ => rfl
  rw [hmp]
  refine absRevised_congr _ _ _ _ ?_
  intro p hp
  unfold CartonsComplex.wrapCandidates at hp
  rcases List.mem_map.mp hp with ⟨e, he, hpe⟩
  subst hpe
  show absRevEntry (CartonsMetric.absRevised cx.metric (cx.wrapCandidates w datas)
      (getTotalSize (cx.wrapCandidates w datas))) e (cx.candOf w e)
    = absRevEntry cx.metric e (cx.candOf w e)
  rcases hc2 : cx.candOf w e with _ | s
  · rfl
  · unfold absRevEntry
    rw [hget e he, hc2]
    unfold absRevEntry
    rcases hz : cx.metric.get e with _ | z <;> rfl

theorem c8_witness :
    cxIdemW.independent = true ∧ (0 : ℚ) < 100 ∧
    ({ cxIdemW with metric := cxIdemW.wrap_effect_on_update 100 [0, 1]
      }).wrap_effect_on_update 100 [0, 1]
      = cxIdemW.wrap_effect_on_update 100 [0, 1] :=
  ⟨rfl, by norm_num, c8_amended cxIdemW 100 [0, 1] rfl (by norm_num)⟩
lemma getTotalSize_cons (p : ℕ × Option ℚ) (l : DataSizes) :
    getTotalSize (p :: l) = p.2.getD 0 + getTotalSize l := rfl

lemma getTotalSize_nonneg (l : DataSizes) (h : ∀ p ∈ l, 0 ≤ p.2.getD 0) :
    0 ≤ getTotalSize l := by
  induction l with
  | nil => exact le_refl 0
  | cons p r ih =>
    rw [getTotalSize_cons]
    have h1 := h p (List.mem_cons_self p r)
    have h2 := ih (fun q hq => h q (List.mem_cons_of_mem p hq))
    linarith

lemma getTotalSize_reverse (l : DataSizes) :
    getTotalSize l.reverse = getTotalSize l := by
  unfold getTotalSize
  rw [List.map_reverse, List.sum_reverse]

lemma max_limited_le_self (cx : CartonsComplex) (d : ℕ) (s w : ℚ) (hw : 0 < w) :
    cx.max_limited d s w ≤ s := by
  rw [max_limited_char cx d s w hw]
  rcases cx.maxResolved d w with _ | c
  · exact le_refl s
  · exact min_le_left s c

lemma fillPass1_conserve (cx : CartonsComplex) (w : ℚ) :
    ∀ (l : DataSizes) (t b : ℚ),
      (cx.fillPass1 w (t, b) l).1.1 + (cx.fillPass1 w (t, b) l).1.2 = t + b := by
  intro l
  induction l with
  | nil => intro t b; rfl
  | cons p rest ih =>
    intro t b
    rcases p with ⟨d, sz⟩
    by_cases hb : 0 < b
    · unfold CartonsComplex.fillPass1
      rw [if_pos hb]
      rcases sz with _ | s
      · dsimp only
        exact ih t b
      · dsimp only
        generalize Max.max (cx.max_limited d (s + s / w * b) w - s) 0 = δ
        have h := ih (t + δ) (b - δ)
        linarith
    · unfold CartonsComplex.fillPass1
      rw [if_neg hb]

lemma fillPass2_conserve (cx : CartonsComplex) (w : ℚ) :
    ∀ (l : DataSizes) (t b : ℚ),
      (cx.fillPass2 w (t, b) l).1.1 + (cx.fillPass2 w (t, b) l).1.2 = t + b := by
  intro l
  induction l with
  | nil => intro t b; rfl
  | cons p rest ih =>
    intro t b
    rcases p with ⟨d, sz⟩
    by_cases hb : 0 < b
    · unfold CartonsComplex.fillPass2
      rw [if_pos hb]
      rcases sz with _ | s
      · dsimp only
        exact ih t b
      · dsimp only
        generalize Max.max (cx.max_limited d (s + b) w - s) 0 = δ
        have h := ih (t + δ) (b - δ)
        linarith
    · unfold CartonsComplex.fillPass2
      rw [if_neg hb]

lemma fillPass2_stop (cx : CartonsComplex) (w : ℚ) (l : DataSizes) (t b : ℚ)
    (hb : ¬ 0 < b) : cx.fillPass2 w (t, b) l = ((t, b), l) := by
  cases l with
  | nil => rfl
  | cons p rest =>
    rcases p with ⟨d, sz⟩
    unfold CartonsComplex.fillPass2
    rw [if_neg hb]

lemma fillPass1_blank (cx : CartonsComplex) (w : ℚ) (hw : 0 < w) :
    ∀ (l : DataSizes) (t b : ℚ), 0 ≤ b → t + b ≤ w → getTotalSize l ≤ t →
      (∀ p ∈ l, 0 ≤ p.2.getD 0) → 0 ≤ (cx.fillPass1 w (t, b) l).1.2 := by
  intro l
  induction l with
  | nil => intro t b hb _ _ _; exact hb
  | cons p rest ih =>
    intro t b hb htw htot hnn
    rcases p with ⟨d, sz⟩
    by_cases hbp : 0 < b
    · unfold CartonsComplex.fillPass1
      rw [if_pos hbp]
      rcases sz with _ | s
      · dsimp only
        refine ih t b hb htw ?_ (fun q hq => hnn q (List.mem_cons_of_mem _ hq))
        rw [getTotalSize_cons] at htot
        simp only [Option.getD_none] at htot
        linarith
      · dsimp only
        have hs0 : 0 ≤ s := by
          have := hnn (d, some s) (List.mem_cons_self _ _)
          simpa using this
        have hrest0 : 0 ≤ getTotalSize rest :=
          getTotalSize_nonneg rest (fun q hq => hnn q (List.mem_cons_of_mem _ hq))
        have hcons := getTotalSize_cons (d, some s) rest
        simp only [Option.getD_some] at hcons
        have hsle : s ≤ t := by
          rw [hcons] at htot
          linarith
        have hsw : s ≤ w := by linarith
        have hadd : s / w * b ≤ b := by
          have h1 : s / w ≤ 1 := (div_le_one hw).mpr hsw
          have h2 : s / w * b ≤ 1 * b := mul_le_mul_of_nonneg_right h1 hb
          linarith
        have hml : cx.max_limited d (s + s / w * b) w ≤ s + s / w * b :=
          max_limited_le_self cx d (s + s / w * b) w hw
        have hδle : Max.max (cx.max_limited d (s + s / w * b) w - s) 0 ≤ b := by
          refine max_le ?_ (le_of_lt hbp)
          linarith
        have hδ0 : 0 ≤ Max.max (cx.max_limited d (s + s / w * b) w - s) 0 :=
          le_max_right _ _
        refine ih (t + Max.max (cx.max_limited d (s + s / w * b) w - s) 0)
          (b - Max.max (cx.max_limited d (s + s / w * b) w - s) 0)
          (by linarith) (by linarith) ?_
          (fun q hq => hnn q (List.mem_cons_of_mem _ hq))
        rw [hcons] at htot
        linarith
    · unfold CartonsComplex.fillPass1
      rw [if_neg hbp]
      exact hb

lemma fillPass2_blank (cx : CartonsComplex) (w : ℚ) (hw : 0 < w) :
    ∀ (l : DataSizes) (t b : ℚ), 0 ≤ b → 0 ≤ (cx.fillPass2 w (t, b) l).1.2 := by
  intro l
  induction l with
  | nil => intro t b hb; exact hb
  | cons p rest ih =>
    intro t b hb
    rcases p with ⟨d, sz⟩
    by_cases hbp : 0 < b
    · unfold CartonsComplex.fillPass2
      rw [if_pos hbp]
      rcases sz with _ | s
      · dsimp only
        exact ih t b hb
      · dsimp only
        have hml : cx.max_limited d (s + b) w ≤ s + b :=
          max_limited_le_self cx d (s + b) w hw
        have hδle : Max.max (cx.max_limited d (s + b) w - s) 0 ≤ b := by
          refine max_le ?_ (le_of_lt hbp)
          linarith
        exact ih _ _ (by linarith)
    · unfold CartonsComplex.fillPass2
      rw [if_neg hbp]
      exact hb

lemma fillPass1_skel (cx : CartonsComplex) (w : ℚ) :
    ∀ (l : DataSizes) (t b : ℚ),
      (cx.fillPass1 w (t, b) l).2.map (fun p => (p.1, p.2.isSome))
        = l.map (fun p => (p.1, p.2.isSome)) := by
  intro l
  induction l with
  | nil => intro t b; rfl
  | cons p rest ih =>
    intro t b
    rcases p with ⟨d, sz⟩
    by_cases hb : 0 < b
    · unfold CartonsComplex.fillPass1
      rw [if_pos hb]
      rcases sz with _ | s
      · dsimp only
        rw [List.map_cons, List.map_cons, ih t b]
      · dsimp only
        rw [List.map_cons, List.map_cons, ih]
        rfl
    · unfold CartonsComplex.fillPass1
      rw [if_neg hb]

lemma fillPass2_skel (cx : CartonsComplex) (w : ℚ) :
    ∀ (l : DataSizes) (t b : ℚ),
      (cx.fillPass2 w (t, b) l).2.map (fun p => (p.1, p.2.isSome))
        = l.map (fun p => (p.1, p.2.isSome)) := by
  intro l
  induction l with
  | nil => intro t b; rfl
  | cons p rest ih =>
    intro t b
    rcases p with ⟨d, sz⟩
    by_cases hb : 0 < b
    · unfold CartonsComplex.fillPass2
      rw [if_pos hb]
      rcases sz with _ | s
      · dsimp only
        rw [List.map_cons, List.map_cons, ih t b]
      · dsimp only
        rw [List.map_cons, List.map_cons, ih]
        rfl
    · unfold CartonsComplex.fillPass2
      rw [if_neg hb]

lemma fillPass1_total (cx : CartonsComplex) (w : ℚ) :
    ∀ (l : DataSizes) (t b : ℚ),
      getTotalSize (cx.fillPass1 w (t, b) l).2 + t
        = (cx.fillPass1 w (t, b) l).1.1 + getTotalSize l := by
  intro l
  induction l with
  | nil => intro t b; simp [CartonsComplex.fillPass1, getTotalSize]
  | cons p rest ih =>
    intro t b
    rcases p with ⟨d, sz⟩
    by_cases hb : 0 < b
    · unfold CartonsComplex.fillPass1
      rw [if_pos hb]
      rcases sz with _ | s
      · dsimp only
        rw [getTotalSize_cons, getTotalSize_cons]
        have h := ih t b
        simp only [Option.getD_none]
        linarith
      · dsimp only
        rw [getTotalSize_cons, getTotalSize_cons]
        generalize Max.max (cx.max_limited d (s + s / w * b) w - s) 0 = δ
        have h := ih (t + δ) (b - δ)
        simp only [Option.getD_some]
        linarith
    · unfold CartonsComplex.fillPass1
      rw [if_neg hb]
      exact add_comm _ _

lemma fillPass2_total (cx : CartonsComplex) (w : ℚ) :
    ∀ (l : DataSizes) (t b : ℚ),
      getTotalSize (cx.fillPass2 w (t, b) l).2 + t
        = (cx.fillPass2 w (t, b) l).1.1 + getTotalSize l := by
  intro l
  induction l with
  | nil => intro t b; simp [CartonsComplex.fillPass2, getTotalSize]
  | cons p rest ih =>
    intro t b
    rcases p with ⟨d, sz⟩
    by_cases hb : 0 < b
    · unfold CartonsComplex.fillPass2
      rw [if_pos hb]
      rcases sz with _ | s
      · dsimp only
        rw [getTotalSize_cons, getTotalSize_cons]
        have h := ih t b
        simp only [Option.getD_none]
        linarith
      · dsimp only
        rw [getTotalSize_cons, getTotalSize_cons]
        generalize Max.max (cx.max_limited d (s + b) w - s) 0 = δ
        have h := ih (t + δ) (b - δ)
        simp only [Option.getD_some]
        linarith
    · unfold CartonsComplex.fillPass2
      rw [if_neg hb]
      exact add_comm _ _
lemma capsSum_append (cx : CartonsComplex) (w : ℚ) :
    ∀ (l₁ l₂ : DataSizes),
      cx.capsSum w (l₁ ++ l₂) = optAdd (cx.capsSum w l₁) (cx.capsSum w l₂) := by
  intro l₁ l₂
  induction l₁ with
  | nil =>
    show cx.capsSum w l₂ = optAdd (some 0) (cx.capsSum w l₂)
    rcases cx.capsSum w l₂ with _ | s
    · rfl
    · show some s = some (0 + s)
      rw [zero_add]
  | cons p t ih =>
    rcases p with ⟨d, sz⟩
    rw [List.cons_append]
    rcases sz with _ | s
    · show cx.capsSum w (t ++ l₂) = optAdd (cx.capsSum w t) (cx.capsSum w l₂)
      exact ih
    · show (match cx.maxResolved d w, cx.capsSum w (t ++ l₂) with
        | some m, some s3 => some (m + s3)
        | _, _ => none)
        = optAdd (match cx.maxResolved d w, cx.capsSum w t with
          | some m, some s3 => some (m + s3)
          | _, _ => none) (cx.capsSum w l₂)
      rw [ih]
      rcases cx.maxResolved d w with _ | m <;>
        rcases cx.capsSum w t with _ | a <;>
        rcases cx.capsSum w l₂ with _ | b2 <;>
        simp only [optAdd] <;>
        first
        | rfl
        | rw [add_assoc]

lemma capsSum_reverse (cx : CartonsComplex) (w : ℚ) :
    ∀ l : DataSizes, cx.capsSum w l.reverse = cx.capsSum w l := by
  intro l
  induction l with
  | nil => rfl
  | cons p t ih =>
    rw [List.reverse_cons, capsSum_append, ih]
    rcases p with ⟨d, sz⟩
    rcases sz with _ | s
    · show optAdd (cx.capsSum w t) (some 0) = cx.capsSum w t
      rcases cx.capsSum w t with _ | a
      · rfl
      · show some (a + 0) = some a
        rw [add_zero]
    · show optAdd (cx.capsSum w t)
        (match cx.maxResolved d w, (some 0 : Option ℚ) with
          | some m, some s2 => some (m + s2)
          | _, _ => none)
        = match cx.maxResolved d w, cx.capsSum w t with
          | some m, some s2 => some (m + s2)
          | _, _ => none
      rcases cx.maxResolved d w with _ | m <;>
        rcases cx.capsSum w t with _ | a <;>
        simp only [optAdd, add_zero] <;>
        first
        | rfl
        | rw [add_comm]

lemma capsSum_skel (cx : CartonsComplex) (w : ℚ) :
    ∀ (l₁ l₂ : DataSizes),
      l₁.map (fun p => (p.1, p.2.isSome)) = l₂.map (fun p => (p.1, p.2.isSome)) →
      cx.capsSum w l₁ = cx.capsSum w l₂ := by
  intro l₁
  induction l₁ with
  | nil =>
    intro l₂ h
    cases l₂ with
    | nil => rfl
    | cons q t => simp at h
  | cons p t ih =>
    intro l₂ h
    cases l₂ with
    | nil => simp at h
    | cons q t₂ =>
      rcases p with ⟨d, sz⟩
      rcases q with ⟨d2, sz2⟩
      simp only [List.map_cons, List.cons.injEq, Prod.mk.injEq] at h
      obtain ⟨⟨h1, h2⟩, h3⟩ := h
      subst h1
      rcases sz with _ | s <;> rcases sz2 with _ | s2
      · show cx.capsSum w t = cx.capsSum w t₂
        exact ih t₂ h3
      · simp at h2
      · simp at h2
      · show (match cx.maxResolved d w, cx.capsSum w t with
          | some m, some s3 => some (m + s3)
          | _, _ => none)
          = match cx.maxResolved d w, cx.capsSum w t₂ with
          | some m, some s3 => some (m + s3)
          | _, _ => none
        rw [ih t₂ h3]

lemma capAtLeast_mono (c : Option ℚ) (x y : ℚ) (hxy : x ≤ y)
    (h : capAtLeast c y = true) : capAtLeast c x = true := by
  rcases c with _ | s
  · rfl
  · simp only [capAtLeast, decide_eq_true_eq] at h ⊢
    exact le_trans hxy h

lemma fillPass2_fills (cx : CartonsComplex) (w : ℚ) (hw : 0 < w) :
    ∀ (l : DataSizes) (t b : ℚ),
      capAtLeast (cx.capsSum w l) (getTotalSize l + b) = true →
      (cx.fillPass2 w (t, b) l).1.2 ≤ 0 := by
  intro l
  induction l with
  | nil =>
    intro t b hcap
    simp only [CartonsComplex.capsSum, capAtLeast, decide_eq_true_eq] at hcap
    show b ≤ 0
    have h0 : getTotalSize ([] : DataSizes) = 0 := rfl
    rw [h0] at hcap
    linarith
  | cons p rest ih =>
    intro t b hcap
    rcases p with ⟨d, sz⟩
    by_cases hbp : 0 < b
    · unfold CartonsComplex.fillPass2
      rw [if_pos hbp]
      rcases sz with _ | s
      · dsimp only
        refine ih t b ?_
        have he : cx.capsSum w ((d, none) :: rest) = cx.capsSum w rest := rfl
        rw [he, getTotalSize_cons] at hcap
        simp only [Option.getD_none, zero_add] at hcap
        exact hcap
      · dsimp only
        have hml := max_limited_char cx d (s + b) w hw
        rcases hmr : cx.maxResolved d w with _ | c
        · rw [hmr] at hml
          have hml2 : cx.max_limited d (s + b) w = s + b := hml
          have hδ : Max.max (cx.max_limited d (s + b) w - s) 0 = b := by
            rw [hml2]
            have h1 : s + b - s = b := by ring
            rw [h1]
            exact max_eq_left (le_of_lt hbp)
          rw [hδ, sub_self]
          rw [fillPass2_stop cx w rest (t + b) 0 (by norm_num)]
        · rw [hmr] at hml
          have hml2 : cx.max_limited d (s + b) w = Min.min (s + b) c := hml
          rcases le_or_lt b (c - s) with hbc | hbc
          · have hδ : Max.max (cx.max_limited d (s + b) w - s) 0 = b := by
              rw [hml2, min_eq_left (by linarith)]
              have h1 : s + b - s = b := by ring
              rw [h1]
              exact max_eq_left (le_of_lt hbp)
            rw [hδ, sub_self]
            rw [fillPass2_stop cx w rest (t + b) 0 (by norm_num)]
          · rcases hcr : cx.capsSum w rest with _ | S
            · refine ih _ _ ?_
              rw [hcr]
              rfl
            · have hcs : cx.capsSum w ((d, some s) :: rest) = some (c + S) := by
                show (match cx.maxResolved d w, cx.capsSum w rest with
                  | some m, some s3 => some (m + s3)
                  | _, _ => none) = some (c + S)
                rw [hmr, hcr]
              rw [hcs, getTotalSize_cons] at hcap
              simp only [capAtLeast, decide_eq_true_eq, Option.getD_some] at hcap
              refine ih _ _ ?_
              rw [hcr]
              simp only [capAtLeast, decide_eq_true_eq]
              have hδge : c - s ≤ Max.max (cx.max_limited d (s + b) w - s) 0 := by
                rw [hml2, min_eq_right (by linarith)]
                exact le_max_left _ _
              linarith
    · unfold CartonsComplex.fillPass2
      rw [if_neg hbp]
      exact le_of_not_lt hbp

lemma skel_forall (P : ℕ → Prop) :
    ∀ (l₁ l₂ : DataSizes),
      l₁.map (fun p => (p.1, p.2.isSome)) = l₂.map (fun p => (p.1, p.2.isSome)) →
      (∀ p ∈ l₂, p.2.isSome = true → P p.1) →
      (∀ p ∈ l₁, p.2.isSome = true → P p.1) := by
  intro l₁
  induction l₁ with
  | nil => intro l₂ h hP p hp; cases hp
  | cons q t ih =>
    intro l₂ h hP p hp hs
    cases l₂ with
    | nil => simp at h
    | cons q2 t₂ =>
      rcases q with ⟨d, sz⟩
      rcases q2 with ⟨d2, sz2⟩
      simp only [List.map_cons, List.cons.injEq, Prod.mk.injEq] at h
      obtain ⟨⟨h1, h2⟩, h3⟩ := h
      subst h1
      rcases List.mem_cons.mp hp with h4 | h4
      · subst h4
        have hs2 : sz2.isSome = true := by
          rw [← h2]
          simpa using hs
        have := hP (d, sz2) (List.mem_cons_self _ _) hs2
        simpa using this
      · exact ih t₂ h3 (fun r hr hrs => hP r (List.mem_cons_of_mem _ hr) hrs) p h4 hs

lemma metricTotal_absRevised (m : CartonsMetric) (ds : DataSizes) (T : ℚ)
    (h : ∀ p ∈ ds, p.2.isSome = true → (m.get p.1).isSome = true) :
    metricTotal (CartonsMetric.absRevised m ds T) = getTotalSize ds := by
  unfold metricTotal CartonsMetric.absRevised getTotalSize
  dsimp only
  rw [List.map_map]
  refine congrArg List.sum (List.map_congr_left ?_)
  intro p hp
  rcases p with ⟨d, sz⟩
  rcases sz with _ | s
  · rfl
  · have hs := h (d, some s) hp rfl
    rcases hmz : m.get d with _ | z
    · rw [hmz] at hs
      simp at hs
    · show (match absRevEntry m d (some s) with
        | some z2 => z2.abs.getD 0
        | none => 0) = (some s).getD 0
      unfold absRevEntry
      rw [hmz]

lemma metricTotal_newFrom (ds : DataSizes) (T : ℚ) :
    metricTotal (CartonsMetric.newFrom ds T) = getTotalSize ds := by
  unfold metricTotal CartonsMetric.newFrom getTotalSize
  dsimp only
  rw [List.map_map]
  refine congrArg List.sum (List.map_congr_left ?_)
  intro p hp
  rcases p with ⟨d, sz⟩
  rcases sz with _ | s <;> rfl

lemma wrap_dep (cx : CartonsComplex) (w : ℚ) (datas : List ℕ)
    (hi : cx.independent = false) :
    cx.wrap_effect_on_update w datas =
      CartonsMetric.absRevised cx.metric
        (cx.adjust_to_fill_blank w (cx.wrapCandidates w datas)).2
        (cx.adjust_to_fill_blank w (cx.wrapCandidates w datas)).1 := by
  obtain ⟨lat, ind, met, mn, mx, az, zw, zc⟩ := cx
  dsimp only at hi
  subst hi
  rfl
lemma wrapCandidates_sized (cx : CartonsComplex) (w : ℚ) (datas : List ℕ) :
    ∀ p ∈ cx.wrapCandidates w datas, p.2.isSome = true →
      (cx.metric.get p.1).isSome = true := by
  intro p hp hs
  unfold CartonsComplex.wrapCandidates at hp
  rcases List.mem_map.mp hp with ⟨e, he, hpe⟩
  subst hpe
  dsimp only at hs ⊢
  unfold CartonsComplex.candOf at hs
  rcases hm : cx.metric.get e with _ | z
  · rw [hm] at hs
    simp at hs
  · rfl

lemma adjust_fills (cx : CartonsComplex) (w : ℚ) (ds : DataSizes) (hw : 0 < w)
    (hnn : ∀ p ∈ ds, 0 ≤ p.2.getD 0)
    (hle : getTotalSize ds ≤ w)
    (hcap : capAtLeast (cx.capsSum w ds) w = true) :
    (w - 1 < (cx.adjust_to_fill_blank w ds).1 ∧ (cx.adjust_to_fill_blank w ds).1 ≤ w)
    ∧ getTotalSize (cx.adjust_to_fill_blank w ds).2 = (cx.adjust_to_fill_blank w ds).1
    ∧ (cx.adjust_to_fill_blank w ds).2.map (fun p => (p.1, p.2.isSome))
        = ds.map (fun p => (p.1, p.2.isSome)) := by
  simp only [CartonsComplex.adjust_to_fill_blank]
  set T0 := getTotalSize ds with hT0
  have hBle : ((⌊w - T0⌋ : ℤ) : ℚ) ≤ w - T0 := Int.floor_le _
  have hBgt : w - T0 - 1 < ((⌊w - T0⌋ : ℤ) : ℚ) := Int.sub_one_lt_floor _
  set B := ((⌊w - T0⌋ : ℤ) : ℚ) with hB
  set r1 := cx.fillPass1 w (T0, B) ds with hr1
  set r2 := cx.fillPass2 w (r1.1.1, r1.1.2) r1.2.reverse with hr2
  split_ifs with hBpos hB2pos
  · dsimp only
    have hc1 : r1.1.1 + r1.1.2 = T0 + B := fillPass1_conserve cx w ds T0 B
    have hb1 : 0 ≤ r1.1.2 :=
      fillPass1_blank cx w hw ds T0 B (le_of_lt hBpos) (by linarith)
        (le_of_eq hT0.symm) hnn
    have hsk1 : r1.2.map (fun p => (p.1, p.2.isSome)) = ds.map (fun p => (p.1, p.2.isSome)) :=
      fillPass1_skel cx w ds T0 B
    have ht1 : getTotalSize r1.2 = r1.1.1 := by
      have h := fillPass1_total cx w ds T0 B
      rw [← hr1, ← hT0] at h
      linarith
    have hc2 : r2.1.1 + r2.1.2 = r1.1.1 + r1.1.2 :=
      fillPass2_conserve cx w r1.2.reverse r1.1.1 r1.1.2
    have hb2 : 0 ≤ r2.1.2 := fillPass2_blank cx w hw r1.2.reverse r1.1.1 r1.1.2 hb1
    have hcapr : capAtLeast (cx.capsSum w r1.2.reverse)
        (getTotalSize r1.2.reverse + r1.1.2) = true := by
      rw [capsSum_reverse, capsSum_skel cx w r1.2 ds hsk1, getTotalSize_reverse, ht1]
      exact capAtLeast_mono _ _ _ (by linarith) hcap
    have hfill : r2.1.2 ≤ 0 :=
      fillPass2_fills cx w hw r1.2.reverse r1.1.1 r1.1.2 hcapr
    have hz : r2.1.2 = 0 := le_antisymm hfill hb2
    have ht2 : getTotalSize r2.2 = r2.1.1 := by
      have h := fillPass2_total cx w r1.2.reverse r1.1.1 r1.1.2
      rw [← hr2] at h
      rw [getTotalSize_reverse, ht1] at h
      linarith
    refine ⟨⟨by linarith, by linarith⟩, ?_, ?_⟩
    · rw [getTotalSize_reverse]
      exact ht2
    · rw [List.map_reverse, hr2, fillPass2_skel cx w r1.2.reverse r1.1.1 r1.1.2]
      rw [List.map_reverse, List.reverse_reverse]
      exact hsk1
  · dsimp only
    have hc1 : r1.1.1 + r1.1.2 = T0 + B := fillPass1_conserve cx w ds T0 B
    have hb1 : 0 ≤ r1.1.2 :=
      fillPass1_blank cx w hw ds T0 B (le_of_lt hBpos) (by linarith)
        (le_of_eq hT0.symm) hnn
    have hsk1 : r1.2.map (fun p => (p.1, p.2.isSome)) = ds.map (fun p => (p.1, p.2.isSome)) :=
      fillPass1_skel cx w ds T0 B
    have ht1 : getTotalSize r1.2 = r1.1.1 := by
      have h := fillPass1_total cx w ds T0 B
      rw [← hr1, ← hT0] at h
      linarith
    have hz1 : r1.1.2 = 0 := le_antisymm (le_of_not_lt hB2pos) hb1
    exact ⟨⟨by linarith, by linarith⟩, ht1, hsk1⟩
  · dsimp only
    have hB0 : B ≤ 0 := le_of_not_lt hBpos
    exact ⟨⟨by linarith, hle⟩, hT0.symm, rfl⟩
/-- C1. Amended dependent-mode total invariant. Reconcile: in dependent mode,
when the candidate sizes are nonnegative, their sum does not exceed the
container extent (the no-min-overflow proviso the counterexample shows is
necessary), and the aggregate resolved max capacity is at least the extent,
the sum of non-collapsed panel sizes in the resulting Size State Map lands in
(extent − 1, extent]: equal to the extent up to the floor rounding of the
blank. Dependent resize: under the same provisos on the post-cascade sizes,
update_resize succeeds and its returned Size State Map sums into the same
interval. -/
theorem c1_amended :
    (∀ (cx : CartonsComplex) (w : ℚ) (datas : List ℕ),
      cx.independent = false → 0 < w →
      (∀ p ∈ cx.wrapCandidates w datas, 0 ≤ p.2.getD 0) →
      getTotalSize (cx.wrapCandidates w datas) ≤ w →
      capAtLeast (cx.capsSum w (cx.wrapCandidates w datas)) w = true →
      w - 1 < metricTotal (cx.wrap_effect_on_update w datas) ∧
        metricTotal (cx.wrap_effect_on_update w datas) ≤ w) ∧
    (∀ (cx : CartonsComplex) (w : ℚ) (dom : List (ℕ × ℚ)) (d : ℕ) (delta : ℚ)
      (cache zc : List (ℕ × ℚ)) (zr : List ℕ) (ds : DataSizes) (index : ℕ)
      (size : Option ℚ),
      cx.independent = false → 0 < w →
      cx.measures dom d = .ok (ds, index, size) →
      (cx.dependent_resizing delta w ds index cache zc zr).1 = .ok () →
      (∀ p ∈ (cx.dependent_resizing delta w ds index cache zc zr).2.1,
        0 ≤ p.2.getD 0) →
      getTotalSize (cx.dependent_resizing delta w ds index cache zc zr).2.1 ≤ w →
      capAtLeast (cx.capsSum w
        (cx.dependent_resizing delta w ds index cache zc zr).2.1) w = true →
      ∃ m r, cx.update_resize w dom d delta cache zc zr = (.ok m, r) ∧
        w - 1 < metricTotal m ∧ metricTotal m ≤ w) := by
  constructor
  · intro cx w datas hi hw hnn hle hcap
    rw [wrap_dep cx w datas hi]
    obtain ⟨⟨h1, h2⟩, h3, h4⟩ :=
      adjust_fills cx w (cx.wrapCandidates w datas) hw hnn hle hcap
    rw [metricTotal_absRevised cx.metric _ _
      (skel_forall (fun e => (cx.metric.get e).isSome = true) _ _ h4
        (wrapCandidates_sized cx w datas)), h3]
    exact ⟨h1, h2⟩
  · intro cx w dom d delta cache zc zr ds index size hi hw hm hok hnn hle hcap
    rcases hdr : cx.dependent_resizing delta w ds index cache zc zr
      with ⟨res, ds1, cache1, zc1, zr1⟩
    rw [hdr] at hok hnn hle hcap
    dsimp only at hok hnn hle hcap
    subst hok
    obtain ⟨⟨h1, h2⟩, h3, h4⟩ := adjust_fills cx w ds1 hw hnn hle hcap
    have hcore : cx.update_resize w dom d delta cache zc zr
        = (.ok (CartonsMetric.newFrom (cx.adjust_to_fill_blank w ds1).2
            (cx.adjust_to_fill_blank w ds1).1), cache1, zc1, zr1) := by
      unfold CartonsComplex.update_resize CartonsComplex.update_resize_core
      simp only [hm, hdr]
      rw [if_neg (by simp [hi])]
    refine ⟨_, _, hcore, ?_, ?_⟩
    · rw [metricTotal_newFrom, h3]
      exact h1
    · rw [metricTotal_newFrom, h3]
      exact h2
theorem c1_witness :
    (cxFillW.independent = false ∧ (0 : ℚ) < 100 ∧
      (∀ p ∈ cxFillW.wrapCandidates 100 [0, 1], 0 ≤ p.2.getD 0) ∧
      getTotalSize (cxFillW.wrapCandidates 100 [0, 1]) ≤ 100 ∧
      capAtLeast (cxFillW.capsSum 100 (cxFillW.wrapCandidates 100 [0, 1])) 100 = true ∧
      ((100 : ℚ) - 1 < metricTotal (cxFillW.wrap_effect_on_update 100 [0, 1]) ∧
        metricTotal (cxFillW.wrap_effect_on_update 100 [0, 1]) ≤ 100)) ∧
    (cxDepW.measures [(0, 100), (1, 100), (2, 100)] 0
        = .ok ([(0, some 100), (1, some 100), (2, some 100)], 0, some 100) ∧
      (cxDepW.dependent_resizing (-40) 300 [(0, some 100), (1, some 100), (2, some 100)]
          0 [] [] []).1 = .ok () ∧
      ∃ m r, cxDepW.update_resize 300 [(0, 100), (1, 100), (2, 100)] 0 (-40) [] [] []
          = (.ok m, r) ∧
        (300 : ℚ) - 1 < metricTotal m ∧ metricTotal m ≤ 300) := by
  have hnnA : ∀ p ∈ cxFillW.wrapCandidates 100 [0, 1], 0 ≤ p.2.getD 0 := by
    norm_num [CartonsComplex.wrapCandidates, CartonsComplex.candOf,
      CartonsComplex.limited, Sizon.max, Sizon.maxAbs, Sizon.min, Sizon.minAbs,
      cxFillW, mkCx, CartonsMap.get, lookupN, Option.map, Option.getD,
      max_def, min_def, List.forall_mem_cons]
  have hleA : getTotalSize (cxFillW.wrapCandidates 100 [0, 1]) ≤ 100 := by
    norm_num [CartonsComplex.wrapCandidates, CartonsComplex.candOf,
      CartonsComplex.limited, Sizon.max, Sizon.maxAbs, Sizon.min, Sizon.minAbs,
      cxFillW, mkCx, CartonsMap.get, lookupN, Option.map, Option.getD,
      max_def, min_def, getTotalSize]
  have hcapA : capAtLeast (cxFillW.capsSum 100 (cxFillW.wrapCandidates 100 [0, 1]))
      100 = true := rfl
  have hdrB : cxDepW.dependent_resizing (-40) 300
      [(0, some 100), (1, some 100), (2, some 100)] 0 [] [] []
      = (.ok (), [(0, some 60), (1, some 140), (2, some 100)], [(0, 100)],
          [(0, 1/3)], []) := by
    norm_num [CartonsComplex.dependent_resizing, CartonsComplex.panelList,
      CartonsComplex.minResolved, CartonsComplex.maxResolved, CartonsComplex.zeroedWhen,
      CartonsComplex.depCase1, CartonsComplex.depCase2, CartonsComplex.absorbExps,
      CartonsComplex.depCase3, CartonsComplex.cachePass, CartonsComplex.frontExpand,
      CartonsComplex.doShrink, CartonsComplex.handle_expanding, CartonsComplex.handle_shrinking,
      CartonsComplex.max_limited, setSize, addSize, addToCache, hmInsert,
      shrinkCapOf, getTotalSize, Sizon.min, Sizon.minAbs, cxDepW, mkCx,
      CartonsMap.get, max_def, min_def, abs, lookupN, eraseKey, eraseN, insertN,
      findPanel, findIndexData, CartonsComplex.panelListFrom, List.getLast?, List.head?,
      List.set, List.get?, Option.map, Option.getD, Option.isNone, List.filter,
      List.erase, List.insert, List.take, List.drop, List.all, List.foldl, updateFirst]
  have hmB : cxDepW.measures [(0, 100), (1, 100), (2, 100)] 0
      = .ok ([(0, some 100), (1, some 100), (2, some 100)], 0, some 100) := rfl
  have hokB : (cxDepW.dependent_resizing (-40) 300
      [(0, some 100), (1, some 100), (2, some 100)] 0 [] [] []).1 = .ok () := by
    rw [hdrB]
  have hnnB : ∀ p ∈ (cxDepW.dependent_resizing (-40) 300
      [(0, some 100), (1, some 100), (2, some 100)] 0 [] [] []).2.1,
      0 ≤ p.2.getD 0 := by
    rw [hdrB]
    norm_num [List.forall_mem_cons]
  have hleB : getTotalSize (cxDepW.dependent_resizing (-40) 300
      [(0, some 100), (1, some 100), (2, some 100)] 0 [] [] []).2.1 ≤ 300 := by
    rw [hdrB]
    norm_num [getTotalSize]
  have hcapB : capAtLeast (cxDepW.capsSum 300 (cxDepW.dependent_resizing (-40) 300
      [(0, some 100), (1, some 100), (2, some 100)] 0 [] [] []).2.1) 300 = true := by
    rw [hdrB]
    rfl
  refine ⟨⟨rfl, by norm_num, hnnA, hleA, hcapA,
    c1_amended.1 cxFillW 100 [0, 1] rfl (by norm_num) hnnA hleA hcapA⟩,
    hmB, hokB,
    c1_amended.2 cxDepW 300 [(0, 100), (1, 100), (2, 100)] 0 (-40) [] [] []
      [(0, some 100), (1, some 100), (2, some 100)] 0 (some 100) rfl (by norm_num)
      hmB hokB hnnB hleB hcapB⟩
lemma growsWithinMax_refl (cx : CartonsComplex) (w : ℚ) (l : DataSizes) :
    List.Forall₂ (growsWithinMax cx w) l l := by
  rw [List.forall₂_same]
  intro p hp
  refine ⟨rfl, ?_⟩
  rcases hp2 : p.2 with _ | s
  · exact Or.inl ⟨rfl, rfl⟩
  · exact Or.inr ⟨s, s, rfl, rfl, le_refl s, fun h => absurd rfl h⟩

lemma growsWithinMax_trans (cx : CartonsComplex) (w : ℚ) :
    ∀ a b c : ℕ × Option ℚ, growsWithinMax cx w a b → growsWithinMax cx w b c →
      growsWithinMax cx w a c := by
  intro a b c h12 h34
  obtain ⟨h1, h2⟩ := h12
  obtain ⟨h3, h4⟩ := h34
  refine ⟨h1.trans h3, ?_⟩
  rcases h2 with ⟨ha, hb⟩ | ⟨s, s2, hs, hs2, hle, hcap⟩
  · rcases h4 with ⟨hb2, hc⟩ | ⟨u, u2, hu, hu2, hle2, hcap2⟩
    · exact Or.inl ⟨ha, hc⟩
    · rw [hb] at hu
      cases hu
  · rcases h4 with ⟨hb2, hc⟩ | ⟨u, u2, hu, hu2, hle2, hcap2⟩
    · rw [hs2] at hb2
      cases hb2
    · rw [hs2] at hu
      injection hu with huv
      subst huv
      refine Or.inr ⟨s, u2, hs, hu2, le_trans hle hle2, fun hne => ?_⟩
      by_cases hsu : s2 = u2
      · subst hsu
        exact hcap hne
      · have h5 := hcap2 hsu
        rw [← h1] at h5
        exact h5

lemma forall2_comp {α : Type} {R : α → α → Prop}
    (hT : ∀ a b c, R a b → R b c → R a c) :
    ∀ (l₁ l₂ l₃ : List α), List.Forall₂ R l₁ l₂ → List.Forall₂ R l₂ l₃ →
      List.Forall₂ R l₁ l₃ := by
  intro l₁ l₂ l₃ h1
  induction h1 generalizing l₃ with
  | nil =>
    intro h2
    cases h2
    exact List.Forall₂.nil
  | cons hab h ih =>
    intro h2
    cases h2 with
    | cons hbc h2t => exact List.Forall₂.cons (hT _ _ _ hab hbc) (ih _ h2t)

lemma fillPass1_grows (cx : CartonsComplex) (w : ℚ) (hw : 0 < w) :
    ∀ (l : DataSizes) (t b : ℚ),
      List.Forall₂ (growsWithinMax cx w) l (cx.fillPass1 w (t, b) l).2 := by
  intro l
  induction l with
  | nil => intro t b; exact List.Forall₂.nil
  | cons p rest ih =>
    intro t b
    rcases p with ⟨d, sz⟩
    by_cases hb : 0 < b
    · unfold CartonsComplex.fillPass1
      rw [if_pos hb]
      rcases sz with _ | s
      · dsimp only
        exact List.Forall₂.cons ⟨rfl, Or.inl ⟨rfl, rfl⟩⟩ (ih t b)
      · dsimp only
        refine List.Forall₂.cons ⟨rfl, Or.inr ⟨s,
          s + Max.max (cx.max_limited d (s + s / w * b) w - s) 0, rfl, rfl, ?_, ?_⟩⟩
          (ih _ _)
        · have h := le_max_right (cx.max_limited d (s + s / w * b) w - s) (0 : ℚ)
          linarith
        · intro hne
          by_cases hL : cx.max_limited d (s + s / w * b) w - s ≤ 0
          · rw [max_eq_right hL] at hne
            exact absurd (add_zero s).symm hne
          · have hL2 : (0 : ℚ) ≤ cx.max_limited d (s + s / w * b) w - s :=
              le_of_lt (not_le.mp hL)
            rw [max_eq_left hL2]
            have hLe : s + (cx.max_limited d (s + s / w * b) w - s)
                = cx.max_limited d (s + s / w * b) w := by ring
            rw [hLe]
            rcases hmx : cx.maxResolved d w with _ | cc
            · rfl
            · simp only [capAtLeast, decide_eq_true_eq]
              exact max_limited_le cx d (s + s / w * b) w cc hw hmx
    · unfold CartonsComplex.fillPass1
      rw [if_neg hb]
      exact growsWithinMax_refl cx w ((d, sz) :: rest)

lemma fillPass2_grows (cx : CartonsComplex) (w : ℚ) (hw : 0 < w) :
    ∀ (l : DataSizes) (t b : ℚ),
      List.Forall₂ (growsWithinMax cx w) l (cx.fillPass2 w (t, b) l).2 := by
  intro l
  induction l with
  | nil => intro t b; exact List.Forall₂.nil
  | cons p rest ih =>
    intro t b
    rcases p with ⟨d, sz⟩
    by_cases hb : 0 < b
    · unfold CartonsComplex.fillPass2
      rw [if_pos hb]
      rcases sz with _ | s
      · dsimp only
        exact List.Forall₂.cons ⟨rfl, Or.inl ⟨rfl, rfl⟩⟩ (ih t b)
      · dsimp only
        refine List.Forall₂.cons ⟨rfl, Or.inr ⟨s,
          s + Max.max (cx.max_limited d (s + b) w - s) 0, rfl, rfl, ?_, ?_⟩⟩
          (ih _ _)
        · have h := le_max_right (cx.max_limited d (s + b) w - s) (0 : ℚ)
          linarith
        · intro hne
          by_cases hL : cx.max_limited d (s + b) w - s ≤ 0
          · rw [max_eq_right hL] at hne
            exact absurd (add_zero s).symm hne
          · have hL2 : (0 : ℚ) ≤ cx.max_limited d (s + b) w - s :=
              le_of_lt (not_le.mp hL)
            rw [max_eq_left hL2]
            have hLe : s + (cx.max_limited d (s + b) w - s)
                = cx.max_limited d (s + b) w := by ring
            rw [hLe]
            rcases hmx : cx.maxResolved d w with _ | cc
            · rfl
            · simp only [capAtLeast, decide_eq_true_eq]
              exact max_limited_le cx d (s + b) w cc hw hmx
    · unfold CartonsComplex.fillPass2
      rw [if_neg hb]
      exact growsWithinMax_refl cx w ((d, sz) :: rest)

lemma adjust_grows (cx : CartonsComplex) (w : ℚ) (ds : DataSizes) (hw : 0 < w) :
    List.Forall₂ (growsWithinMax cx w) ds (cx.adjust_to_fill_blank w ds).2 := by
  simp only [CartonsComplex.adjust_to_fill_blank]
  set T0 := getTotalSize ds with hT0
  set B := ((⌊w - T0⌋ : ℤ) : ℚ) with hB
  set r1 := cx.fillPass1 w (T0, B) ds with hr1
  set r2 := cx.fillPass2 w (r1.1.1, r1.1.2) r1.2.reverse with hr2
  split_ifs with hBpos hB2pos
  · dsimp only
    refine forall2_comp (growsWithinMax_trans cx w) ds r1.2 r2.2.reverse
      (fillPass1_grows cx w hw ds T0 B) ?_
    have h2 : List.Forall₂ (growsWithinMax cx w) r1.2.reverse r2.2 :=
      fillPass2_grows cx w hw r1.2.reverse r1.1.1 r1.1.2
    have h3 := List.forall₂_reverse_iff.mpr h2
    rw [List.reverse_reverse] at h3
    exact h3
  · dsimp only
    exact fillPass1_grows cx w hw ds T0 B
  · dsimp only
    exact growsWithinMax_refl cx w ds

lemma absorbExps_bounds (cx : CartonsComplex) (w : ℚ) :
    ∀ (l : List PanelInfo) (c : ℚ), ∀ q ∈ (cx.absorbExps w c l).2,
      ∃ p, p ∈ l ∧ q.1 = p.i ∧ ∃ s, p.sz = some s ∧ 0 ≤ q.2 ∧
        (q.2 ≠ 0 → capAtLeast (cx.maxResolved p.d w) (s + q.2) = true) := by
  intro l
  induction l with
  | nil =>
    intro c q hq
    simp [CartonsComplex.absorbExps] at hq
  | cons p rest ih =>
    intro c q hq
    unfold CartonsComplex.absorbExps at hq
    by_cases hc : c ≤ 0
    · rw [if_pos hc] at hq
      simp at hq
    · rw [if_neg hc] at hq
      rcases hsz : p.sz with _ | s
      · simp only [hsz] at hq
        obtain ⟨p2, hp2, hq1, hrest⟩ := ih c q hq
        exact ⟨p2, List.mem_cons_of_mem p hp2, hq1, hrest⟩
      · simp only [hsz] at hq
        rcases hmx : cx.maxResolved p.d w with _ | mx
        · simp only [hmx] at hq
          rcases List.mem_cons.mp hq with h1 | h1
          · subst h1
            refine ⟨p, List.mem_cons_self p rest, rfl, s, hsz,
              le_of_lt (not_le.mp hc), fun h => ?_⟩
            rw [hmx]
            rfl
          · obtain ⟨p2, hp2, hq1, hrest⟩ := ih (c - c) q h1
            exact ⟨p2, List.mem_cons_of_mem p hp2, hq1, hrest⟩
        · simp only [hmx] at hq
          rcases List.mem_cons.mp hq with h1 | h1
          · subst h1
            refine ⟨p, List.mem_cons_self p rest, rfl, s, hsz,
              le_min (le_max_right _ _) (le_of_lt (not_le.mp hc)), fun hne => ?_⟩
            rw [hmx]
            simp only [capAtLeast, decide_eq_true_eq]
            have h0 : (0 : ℚ) ≤ Min.min (Max.max (mx - s) 0) c :=
              le_min (le_max_right _ _) (le_of_lt (not_le.mp hc))
            have hpos : 0 < Min.min (Max.max (mx - s) 0) c :=
              lt_of_le_of_ne h0 (Ne.symm hne)
            have h2 : Min.min (Max.max (mx - s) 0) c ≤ Max.max (mx - s) 0 :=
              min_le_left _ _
            rcases le_or_lt (mx - s) 0 with h3 | h3
            · have h5 := max_eq_right h3
              linarith
            · have h5 := max_eq_left (le_of_lt h3)
              linarith
          · obtain ⟨p2, hp2, hq1, hrest⟩ := ih _ q h1
            exact ⟨p2, List.mem_cons_of_mem p hp2, hq1, hrest⟩

lemma switchOnGather_bounds (cx : CartonsComplex) (w : ℚ) :
    ∀ (l : DataSizes) (c : ℚ) (i0 : ℕ), ∀ q ∈ (cx.switchOnGather w c i0 l).2,
      ∃ k d s, q.1 = i0 + k ∧ l.get? k = some (d, some s) ∧
        0 < q.2 ∧ cx.minResolved d w ≤ s - q.2 := by
  intro l
  induction l with
  | nil =>
    intro c i0 q hq
    simp [CartonsComplex.switchOnGather] at hq
  | cons p rest ih =>
    intro c i0 q hq
    unfold CartonsComplex.switchOnGather at hq
    by_cases hc : c ≤ 0
    · rw [if_pos hc] at hq
      simp at hq
    · rw [if_neg hc] at hq
      rcases hp : p.2 with _ | s
      · simp only [hp] at hq
        obtain ⟨k, d, s2, hk, hget, h1, h2⟩ := ih c (i0 + 1) q hq
        exact ⟨k + 1, d, s2, by omega, hget, h1, h2⟩
      · simp only [hp] at hq
        by_cases hcap : 0 < Min.min (Max.max (s - cx.minResolved p.1 w) 0) c
        · rw [if_pos hcap] at hq
          rcases List.mem_cons.mp hq with h1 | h1
          · subst h1
            refine ⟨0, p.1, s, (Nat.add_zero i0).symm, ?_, hcap, ?_⟩
            · show some p = some (p.1, some s)
              rw [← hp]
            · have h2 : Min.min (Max.max (s - cx.minResolved p.1 w) 0) c
                  ≤ Max.max (s - cx.minResolved p.1 w) 0 := min_le_left _ _
              rcases le_or_lt (s - cx.minResolved p.1 w) 0 with h3 | h3
              · have h5 := max_eq_right h3
                linarith
              · have h5 := max_eq_left (le_of_lt h3)
                linarith
          · obtain ⟨k, d, s2, hk, hget, hb1, hb2⟩ := ih _ (i0 + 1) q h1
            exact ⟨k + 1, d, s2, by omega, hget, hb1, hb2⟩
        · rw [if_neg hcap] at hq
          obtain ⟨k, d, s2, hk, hget, hb1, hb2⟩ := ih c (i0 + 1) q hq
          exact ⟨k + 1, d, s2, by omega, hget, hb1, hb2⟩

lemma switchOffGather_bounds (cx : CartonsComplex) (w : ℚ) :
    ∀ (l : DataSizes) (c : ℚ) (i0 : ℕ), ∀ q ∈ (cx.switchOffGather w c i0 l).2,
      ∃ k d s, q.1 = i0 + k ∧ l.get? k = some (d, some s) ∧
        0 ≤ q.2 ∧ (q.2 ≠ 0 → capAtLeast (cx.maxResolved d w) (s + q.2) = true) := by
  intro l
  induction l with
  | nil =>
    intro c i0 q hq
    simp [CartonsComplex.switchOffGather] at hq
  | cons p rest ih =>
    intro c i0 q hq
    unfold CartonsComplex.switchOffGather at hq
    by_cases hc : c ≤ 0
    · rw [if_pos hc] at hq
      simp at hq
    · rw [if_neg hc] at hq
      rcases hp : p.2 with _ | s
      · simp only [hp] at hq
        obtain ⟨k, d, s2, hk, hget, h1, h2⟩ := ih c (i0 + 1) q hq
        exact ⟨k + 1, d, s2, by omega, hget, h1, h2⟩
      · simp only [hp] at hq
        rcases hmx : cx.maxResolved p.1 w with _ | mx
        · simp only [hmx] at hq
          rcases List.mem_cons.mp hq with h1 | h1
          · subst h1
            refine ⟨0, p.1, s, (Nat.add_zero i0).symm, ?_,
              le_of_lt (not_le.mp hc), fun h => ?_⟩
            · show some p = some (p.1, some s)
              rw [← hp]
            · rw [hmx]
              rfl
          · obtain ⟨k, d, s2, hk, hget, hb1, hb2⟩ := ih _ (i0 + 1) q h1
            exact ⟨k + 1, d, s2, by omega, hget, hb1, hb2⟩
        · simp only [hmx] at hq
          rcases List.mem_cons.mp hq with h1 | h1
          · subst h1
            refine ⟨0, p.1, s, (Nat.add_zero i0).symm, ?_,
              le_min (le_max_right _ _) (le_of_lt (not_le.mp hc)), fun hne => ?_⟩
            · show some p = some (p.1, some s)
              rw [← hp]
            · rw [hmx]
              simp only [capAtLeast, decide_eq_true_eq]
              have h0 : (0 : ℚ) ≤ Min.min (Max.max (mx - s) 0) c :=
                le_min (le_max_right _ _) (le_of_lt (not_le.mp hc))
              have hpos : 0 < Min.min (Max.max (mx - s) 0) c :=
                lt_of_le_of_ne h0 (Ne.symm hne)
              have h2 : Min.min (Max.max (mx - s) 0) c ≤ Max.max (mx - s) 0 :=
                min_le_left _ _
              rcases le_or_lt (mx - s) 0 with h3 | h3
              · have h5 := max_eq_right h3
                linarith
              · have h5 := max_eq_left (le_of_lt h3)
                linarith
          · obtain ⟨k, d, s2, hk, hget, hb1, hb2⟩ := ih _ (i0 + 1) q h1
            exact ⟨k + 1, d, s2, by omega, hget, hb1, hb2⟩
/-- C2 amended: the one-sided bounds committed size assignments do enforce,
at every assignment site. A committed shrink (handle_shrinking, also used by
the dependent cascade's do_shrink) either collapses the panel (entry none) or
lands at or above the resolved minimum; a committed expansion of a sized
panel (handle_expanding) never exceeds the resolved maximum when one exists;
every size added by adjust_to_fill_blank — run by reconcile and by every
committed dependent resize — only grows a panel and keeps a grown panel
within its resolved max; every absorption recorded by depCase1's collapse
targets a sized panel and stays within its resolved max; every deduction
gathered by switch_zero's restore leaves its panel at or above its resolved
minimum; every addition gathered by switch_zero's collapse keeps its panel
within its resolved max. Bounds are not re-imposed on the other side (see
the counterexample) nor on untouched panels. -/
theorem c2_amended :
    (∀ (cx : CartonsComplex) (d : ℕ) (delta w : ℚ) (ds : DataSizes) (index : ℕ)
      (s : ℚ) (zc : List (ℕ × ℚ)) (r : ℚ × DataSizes × List (ℕ × ℚ)),
      cx.handle_shrinking d delta w ds index (some s) (cx.minResolved d w) zc = some r →
      (r.1 = 0 ∧ r.2.1 = setSize ds index none) ∨ cx.minResolved d w ≤ r.1) ∧
    (∀ (cx : CartonsComplex) (d : ℕ) (delta w : ℚ) (ds : DataSizes) (index : ℕ)
      (s mn : ℚ) (zr : List ℕ) (r : ℚ × DataSizes × List ℕ) (c : ℚ), 0 < w →
      cx.handle_expanding d delta w ds index (some s) mn zr = some r →
      cx.maxResolved d w = some c → r.1 ≤ c) ∧
    (∀ (cx : CartonsComplex) (w : ℚ) (ds : DataSizes), 0 < w →
      List.Forall₂ (growsWithinMax cx w) ds (cx.adjust_to_fill_blank w ds).2) ∧
    (∀ (cx : CartonsComplex) (w : ℚ) (l : List PanelInfo) (c : ℚ),
      ∀ q ∈ (cx.absorbExps w c l).2,
        ∃ p, p ∈ l ∧ q.1 = p.i ∧ ∃ s, p.sz = some s ∧ 0 ≤ q.2 ∧
          (q.2 ≠ 0 → capAtLeast (cx.maxResolved p.d w) (s + q.2) = true)) ∧
    (∀ (cx : CartonsComplex) (w : ℚ) (l : DataSizes) (c : ℚ) (i0 : ℕ),
      ∀ q ∈ (cx.switchOnGather w c i0 l).2,
        ∃ k d s, q.1 = i0 + k ∧ l.get? k = some (d, some s) ∧
          0 < q.2 ∧ cx.minResolved d w ≤ s - q.2) ∧
    (∀ (cx : CartonsComplex) (w : ℚ) (l : DataSizes) (c : ℚ) (i0 : ℕ),
      ∀ q ∈ (cx.switchOffGather w c i0 l).2,
        ∃ k d s, q.1 = i0 + k ∧ l.get? k = some (d, some s) ∧
          0 ≤ q.2 ∧ (q.2 ≠ 0 → capAtLeast (cx.maxResolved d w) (s + q.2) = true)) := by
  refine ⟨?_, ?_, ?_, ?_, ?_, ?_⟩
  · intro cx d delta w ds index s zc r h
    simp only [CartonsComplex.handle_shrinking] at h
    by_cases hlt : s + delta < cx.minResolved d w
    · rw [if_pos hlt] at h
      rcases hzw : cx.zeroedWhen d s with _ | zw <;> simp only [hzw] at h
      · exact absurd h (by simp)
      by_cases habs : zw < |delta|
      · rw [if_pos habs, Option.some.injEq] at h
        subst h
        exact Or.inl ⟨rfl, rfl⟩
      · rw [if_neg habs] at h
        exact absurd h (by simp)
    · rw [if_neg hlt, Option.some.injEq] at h
      subst h
      exact Or.inr (not_lt.mp hlt)
  · intro cx d delta w ds index s mn zr r c hw h hc
    simp only [CartonsComplex.handle_expanding] at h
    by_cases hge : mn ≤ s + delta
    · rw [if_pos hge] at h
      by_cases hlt : s < cx.max_limited d (s + delta) w
      · rw [if_pos hlt, Option.some.injEq] at h
        subst h
        exact max_limited_le cx d (s + delta) w c hw hc
      · rw [if_neg hlt] at h
        exact absurd h (by simp)
    · rw [if_neg hge] at h
      exact absurd h (by simp)
  · intro cx w ds hw
    exact adjust_grows cx w ds hw
  · intro cx w l c
    exact absorbExps_bounds cx w l c
  · intro cx w l c i0
    exact switchOnGather_bounds cx w l c i0
  · intro cx w l c i0
    exact switchOffGather_bounds cx w l c i0

/-- Witness for c2_amended at concrete inputs: a shrink of 100 by 10
(min 30) lands at 90, at or above the minimum; an expansion of 50 by 100
clamps at the resolved max 80; the fill pass grows a 100-wide panel within
bounds in a 300-wide container; a recorded absorption of 10 into a 50-wide
panel stays under max 80; a restore gather deducts 20 from a 100-wide panel
leaving it at 80, above min 30; a collapse gather adds 10 to a 50-wide
panel, under max 80. -/
theorem c2_witness :
    ((((90 : ℚ) = 0 ∧ (setSize [(0, some 100)] 0 (some 90) : DataSizes) =
        setSize [(0, some 100)] 0 none) ∨ cxBoundsW.minResolved 0 300 ≤ 90) ∧
      (80 : ℚ) ≤ 80) ∧
    List.Forall₂ (growsWithinMax cxBoundsW 300) [(0, some 100)]
      (cxBoundsW.adjust_to_fill_blank 300 [(0, some 100)]).2 ∧
    (∃ p, p ∈ [(⟨1, 0, some 50, 30⟩ : PanelInfo)] ∧ (1 : ℕ) = p.i ∧
      ∃ s, p.sz = some s ∧ (0 : ℚ) ≤ 10 ∧
        ((10 : ℚ) ≠ 0 → capAtLeast (cxBoundsW.maxResolved p.d 300) (s + 10) = true)) ∧
    (∃ k d s, (0 : ℕ) = 0 + k ∧
      ([(0, some 100)] : DataSizes).get? k = some (d, some s) ∧
      (0 : ℚ) < 20 ∧ cxBoundsW.minResolved d 300 ≤ s - 20) ∧
    (∃ k d s, (0 : ℕ) = 0 + k ∧
      ([(0, some 50)] : DataSizes).get? k = some (d, some s) ∧
      (0 : ℚ) ≤ 10 ∧ ((10 : ℚ) ≠ 0 →
        capAtLeast (cxBoundsW.maxResolved d 300) (s + 10) = true)) := by
  refine ⟨⟨?_, ?_⟩, ?_, ?_, ?_, ?_⟩
  · exact c2_amended.1 cxBoundsW 0 (-10) 300 [(0, some 100)] 0 100 []
      (90, setSize [(0, some 100)] 0 (some 90), hmInsert [] 0 (100 / 300))
      (by norm_num [CartonsComplex.handle_shrinking, CartonsComplex.minResolved,
        CartonsComplex.zeroedWhen, cxBoundsW, mkCx, CartonsMap.get, lookupN, hmInsert,
        eraseKey, setSize, List.get?, List.set])
  · exact c2_amended.2.1 cxBoundsW 0 100 300 [(0, some 50)] 0 50 30 []
      (80, setSize [(0, some 50)] 0 (some 80), []) 80 (by norm_num)
      (by norm_num [CartonsComplex.handle_expanding, CartonsComplex.max_limited,
        CartonsComplex.minResolved, Sizon.min, Sizon.minAbs, cxBoundsW, mkCx,
        CartonsMap.get, lookupN, setSize, List.get?, List.set, max_def, min_def])
      (by norm_num [CartonsComplex.maxResolved, cxBoundsW, mkCx, CartonsMap.get, lookupN])
  · exact c2_amended.2.2.1 cxBoundsW 300 [(0, some 100)] (by norm_num)
  · exact c2_amended.2.2.2.1 cxBoundsW 300 [⟨1, 0, some 50, 30⟩] 10 (1, 10)
      (by norm_num [CartonsComplex.absorbExps, CartonsComplex.maxResolved,
        cxBoundsW, mkCx, CartonsMap.get, lookupN, max_def, min_def])
  · exact c2_amended.2.2.2.2.1 cxBoundsW 300 [(0, some 100)] 20 0 (0, 20)
      (by norm_num [CartonsComplex.switchOnGather, CartonsComplex.minResolved,
        cxBoundsW, mkCx, CartonsMap.get, lookupN, max_def, min_def])
  · exact c2_amended.2.2.2.2.2 cxBoundsW 300 [(0, some 50)] 10 0 (0, 10)
      (by norm_num [CartonsComplex.switchOffGather, CartonsComplex.maxResolved,
        cxBoundsW, mkCx, CartonsMap.get, lookupN, max_def, min_def])
